import Mathlib

/-!
Verification development for the `biome-action` continuous-integration helper.

The repository has three source parts:
* `src/index.js`  — the setup routine (`run`), input parsing and `execOutput`;
* `src/post.js`   — the teardown routine (`run`);
* shared constants (marker-file paths, cache keys).

We shallowly embed the two routines as pure functions from a configuration,
an oracle of external-call outcomes, and a file-system state (the set of
existing paths) to a result consisting of the final file-system state, the
ordered list of externally visible events, and an outcome.  External
collaborators (`@actions/core`, `@actions/exec`, `@actions/io`,
`@actions/cache`, `fs`) are opaque: each awaited call's success or failure
and each returned value is supplied by the oracle, one field per call site.
-/

namespace BiomeAction

/-! ## JavaScript string helpers

`index.js` parses inputs with `split(/\s+/)`, `split(/\s*\n\s*/)`, `trim()`
and `filter(pkg => Boolean(pkg))`.  We embed these over `List Char`.
The whitespace class models the characters of the JavaScript `\s` class that
can occur in action inputs (ASCII whitespace). -/

def isWsChar (c : Char) : Bool :=
  c = ' ' || c = '\t' || c = '\n' || c = '\r' || c = Char.ofNat 11 || c = Char.ofNat 12

theorem lengthDropWhileLe {α : Type} (p : α → Bool) :
    ∀ l : List α, (l.dropWhile p).length ≤ l.length := by
  intro l
  induction l with
  | nil => simp [List.dropWhile]
  | cons a t ih =>
    by_cases h : p a
    · simpa [List.dropWhile_cons_of_pos h] using Nat.le_succ_of_le ih
    · simp [List.dropWhile_cons_of_neg h]

/-- One splitting step of `String.prototype.split(/\s+/)`: a maximal run of
whitespace is a separator.  `acc` holds the current token reversed; `sep`
records that we are still inside the separator run whose first character
already ended the previous token (so further whitespace is consumed without
emitting anything). -/
def wsGo (sep : Bool) (acc : List Char) : List Char → List (List Char)
  | [] => [acc.reverse]
  | c :: cs =>
    if sep then
      if isWsChar c then wsGo true [] cs
      else wsGo false [c] cs
    else if isWsChar c then acc.reverse :: wsGo true [] cs
    else wsGo false (c :: acc) cs

/-- `s.split(/\s+/)` of JavaScript: empty tokens appear only at the edges
(for leading/trailing whitespace) and `"".split` yields `[""]`. -/
def jsSplitWs (cs : List Char) : List (List Char) := wsGo false [] cs

/-- One splitting step of `split(/\s*\n\s*/)`: a maximal whitespace run that
contains a newline is a separator (the greedy regex consumes the whole run);
whitespace runs without a newline belong to the surrounding token.  `sep`
records that we are inside a separator run being consumed. -/
def nlGo (sep : Bool) (acc : List Char) : List Char → List (List Char)
  | [] => [acc.reverse]
  | c :: cs =>
    if sep then
      if isWsChar c then nlGo true [] cs
      else nlGo false [c] cs
    else if isWsChar c && (c = '\n' || (cs.takeWhile isWsChar).contains '\n') then
      acc.reverse :: nlGo true [] cs
    else nlGo false (c :: acc) cs

/-- `s.split(/\s*\n\s*/)` of JavaScript. -/
def jsSplitNl (cs : List Char) : List (List Char) := nlGo false [] cs

/-- `String.prototype.trim()`: drop whitespace from both ends. -/
def trimCs (cs : List Char) : List Char :=
  ((cs.dropWhile isWsChar).reverse.dropWhile isWsChar).reverse

def jsTrim (s : String) : String := String.mk (trimCs s.data)

/-! ## Input parsing (module level of `src/index.js`) -/

/-- `const deps = (core.getInput('deps') || '').split(/\s+/).filter(pkg => Boolean(pkg))`.
The argument is the string returned by `core.getInput('deps')`. -/
def parseDeps (s : String) : List String :=
  ((jsSplitWs s.data).filter (fun t => t ≠ [])).map String.mk

/-- The parsed supervisor directive: `true`, `false`, or an array of service
strings in the source. -/
inductive Supervisor
  | enabled
  | disabled
  | services (svcs : List String)
deriving DecidableEq, Repr

/-- `const supervisor = core.getInput('supervisor') == 'true' ? true
      : (!core.getInput('supervisor') ? false
         : core.getInput('supervisor').trim().split(/\s*\n\s*/).filter(svc => Boolean(svc)))`. -/
def parseSupervisor (s : String) : Supervisor :=
  if s = "true" then .enabled
  else if s = "" then .disabled
  else .services (((jsSplitNl (trimCs s.data)).filter (fun t => t ≠ [])).map String.mk)

/-- Runtime configuration: the raw `core.getInput` values plus the process
environment the module reads (`GITHUB_WORKFLOW`, `HOME`). -/
structure Config where
  deps : String
  supervisor : String
  cacheKey : String
  githubWorkflow : String
  home : String

def Config.depsList (c : Config) : List String := parseDeps c.deps

def Config.supervisorVal (c : Config) : Supervisor := parseSupervisor c.supervisor

/-- `const cacheKey = core.getInput('cache-key') || `hab-artifacts-cache:${process.env.GITHUB_WORKFLOW}``. -/
def resolvedCacheKey (c : Config) : String :=
  if c.cacheKey = "" then "hab-artifacts-cache:" ++ c.githubWorkflow else c.cacheKey

/-! ## Marker-file paths -/

/-- `src/index.js`: `const CACHE_LOCK_PATH = '/hab/cache/artifacts/.cached'`. -/
def CACHE_LOCK_PATH : String := "/hab/cache/artifacts/.cached"

/-- `src/index.js`: `const RESTORE_LOCK_PATH = '/hab/cache/artifacts/.restored'`. -/
def RESTORE_LOCK_PATH : String := "/hab/cache/artifacts/.restored"

/-- `src/post.js`: `const CACHE_LOCK_PATH = '/hab/pkgs/.cached'` (a distinct
constant in a distinct file; renamed here to avoid the clash). -/
def POST_CACHE_LOCK_PATH : String := "/hab/pkgs/.cached"

/-! ## Events and outcomes -/

/-- Tags of the `core.startGroup` calls, with their source titles in
`GroupTag.title`. -/
inductive GroupTag
  | installingBiome
  | creatingHabUser
  | linkingCache
  | updatingCacheOwnership
  | restoringCache
  | installingDeps (pkgs : List String)
  | startingSupervisor
  | loadingService (svc : String)
  | sudolessInstall
  | savingPackageCache
deriving DecidableEq, Repr

def GroupTag.title : GroupTag → String
  | .installingBiome => "Installing Biome"
  | .creatingHabUser => "Creating hab user"
  | .linkingCache => "Linking ~/.hab/cache to /hab/cache"
  | .updatingCacheOwnership => "Updating cache ownership"
  | .restoringCache => "Restoring package cache"
  | .installingDeps pkgs => "Installing deps: " ++ " ".intercalate pkgs
  | .startingSupervisor => "Starting supervisor"
  | .loadingService svc => "Loading service: " ++ svc
  | .sudolessInstall => "Enabling sudoless package installation"
  | .savingPackageCache => "Saving package cache"

/-- Tags of the `core.setFailed` call sites; `FailTag.msgHead` is the
phase-specific prefix each one puts before `err.message`. -/
inductive FailTag
  | installBiome
  | createHabUser
  | verifyBio
  | linkCache
  | updateCacheOwnership
  | restorePackageCache
  | installDeps
  | startSupervisor
  | loadService
  | sudolessInstallF
  | savePackageCache
deriving DecidableEq, Repr

def FailTag.msgHead : FailTag → String
  | .installBiome => "Failed to install Biome: "
  | .createHabUser => "Failed to create hab user: "
  | .verifyBio => "Failed to verify bio installation: "
  | .linkCache => "Failed to link ~/.hab/cache: "
  | .updateCacheOwnership => "Failed to update cache ownership: "
  | .restorePackageCache => "Failed to restore package cache: "
  | .installDeps => "Failed to install deps: "
  | .startSupervisor => "Failed to start supervisor: "
  | .loadService => "Failed to load service: "
  | .sudolessInstallF => "Failed to enable sudoless package installation: "
  | .savePackageCache => "Failed to save package cache: "

/-- Externally visible actions, in program order. -/
inductive Event
  | exportVar (name value : String)
  | whichBio
  | infoMsg (msg : String)
  | startGroup (g : GroupTag)
  | endGroup
  | execArgs (cmd : String) (args : List String)
  | rmRF (path : String)
  | writeFile (path : String)
  | pkgInstall (pkgs : List String)
  | svcLoad (svc : String)
  | restoreCall (paths : List String) (key : String)
  | saveCall (paths : List String) (key : String)
  | setFailedMsg (tag : FailTag) (errMsg : String)
deriving DecidableEq, Repr

def Event.isRestore : Event → Bool
  | .restoreCall _ _ => true
  | _ => false

def Event.isSave : Event → Bool
  | .saveCall _ _ => true
  | _ => false

def Event.isFailReport : Event → Bool
  | .setFailedMsg _ _ => true
  | _ => false

def countRestore (es : List Event) : Nat := es.countP Event.isRestore

def countSave (es : List Event) : Nat := es.countP Event.isSave

/-- How a routine ends: ran to the end, returned after `core.setFailed`, or
aborted on a rejection that no `try`/`catch` inside `run` handles (the
module-level `try { module.exports = run(); } catch` never observes an async
rejection). -/
inductive Outcome
  | completed
  | halted
  | crashed (msg : String)
deriving DecidableEq, Repr

structure RunResult where
  fs : List String
  events : List Event
  outcome : Outcome
deriving DecidableEq, Repr

/-! ## Oracle: outcomes of the external calls

One field per call site; `none` means the awaited call succeeded, `some m`
means it threw an error whose `.message` is `m`. -/

structure Oracle where
  exportNoninteractiveR : Option String
  exportBldrUrlR : Option String
  exportStudioTypeR : Option String
  /-- Rejection of `io.which('bio')`; outside every `try` in `run`. -/
  whichErr : Option String
  /-- Truthiness of the value `io.which('bio')` resolves to. -/
  whichFound : Bool
  wgetR : Option String
  tarR : Option String
  mvR : Option String
  chmodBioR : Option String
  rmTarR : Option String
  groupaddR : Option String
  useraddR : Option String
  rmInstallShR : Option String
  versionR : Option String
  mkdirHomeR : Option String
  lnR : Option String
  mkdirCacheR : Option String
  chownCacheR : Option String
  chmodCacheR : Option String
  mkdirArtifactsR : Option String
  writeLock1R : Option String
  /-- Rejection of `cache.restoreCache`. -/
  restoreErr : Option String
  /-- The cache identifier `cache.restoreCache` resolves to (when it does not reject). -/
  restoreHit : Option String
  /-- Paths materialised under `/hab/cache/artifacts` by a successful restore. -/
  restoreFiles : List String
  writeLock2R : Option String
  rmLockR : Option String
  pkgInstallR : Option String
  mkdirSupR : Option String
  setsidR : Option String
  waitSecretR : Option String
  chgrpSecretR : Option String
  chmodSecretR : Option String
  waitStatusR : Option String
  /-- Outcome of `bio svc load` for the i-th service of the list. -/
  svcLoadR : Nat → Option String
  chownPkgsR : Option String
  findChmodR : Option String

structure PostOracle where
  writeLockR : Option String
  saveErr : Option String
  saveId : Option String

/-! ## Phase machinery

Each `try { ... } catch (err) { core.setFailed(...); return; } finally
{ core.endGroup(); }` block runs its awaited calls in order; the first
rejection stops the block, is reported with the phase prefix, and the routine
returns after the `finally` ran. -/

/-- Run a list of (event, outcome) steps in order; stop at the first
failure, returning the events of every attempted call and the error. -/
def runSteps : List (Event × Option String) → List Event × Option String
  | [] => ([], none)
  | (e, r) :: rest =>
    match r with
    | some m => ([e], some m)
    | none => (e :: (runSteps rest).1, (runSteps rest).2)

structure StepR where
  events : List Event
  ok : Bool

/-- A `core.startGroup`-wrapped try/catch/finally phase. -/
def tryPhase (g : GroupTag) (t : FailTag) (steps : List (Event × Option String)) : StepR :=
  match (runSteps steps).2 with
  | none => ⟨Event.startGroup g :: (runSteps steps).1 ++ [Event.endGroup], true⟩
  | some m =>
    ⟨Event.startGroup g :: (runSteps steps).1 ++ [Event.setFailedMsg t m, Event.endGroup], false⟩

/-! ## Setup routine (`src/index.js`, `run`) -/

def wgetCmd : String :=
  "wget https://github.com/biome-sh/biome/releases/download/v1.6.372/bio-1.6.372-x86_64-linux.tar.gz"

/-- Lines 47-59: download, extract, move, chmod, delete the archive. -/
def installPhase (o : Oracle) : StepR :=
  tryPhase .installingBiome .installBiome
    [(.execArgs wgetCmd [], o.wgetR),
     (.execArgs "tar xf bio-1.6.372-x86_64-linux.tar.gz" [], o.tarR),
     (.execArgs "sudo mv bio /usr/bin" [], o.mvR),
     (.execArgs "sudo chmod +x /usr/bin/bio" [], o.chmodBioR),
     (.rmRF "bio-1.6.372-x86_64-linux.tar.gz", o.rmTarR)]

/-- Lines 63-73: create the hab group and user. -/
def userPhase (o : Oracle) : StepR :=
  tryPhase .creatingHabUser .createHabUser
    [(.execArgs "sudo groupadd hab" [], o.groupaddR),
     (.execArgs "sudo useradd -g hab -G docker hab" [], o.useraddR),
     (.rmRF "/tmp/hab-install.sh", o.rmInstallShR)]

/-- Lines 77-82: `bio --version`, with no surrounding group. -/
def verifyPhase (o : Oracle) : StepR :=
  match o.versionR with
  | none => ⟨[.execArgs "bio --version" []], true⟩
  | some m => ⟨[.execArgs "bio --version" [], .setFailedMsg .verifyBio m], false⟩

/-- Lines 86-95: link the user cache directory to the global one. -/
def linkPhase (c : Config) (o : Oracle) : StepR :=
  tryPhase .linkingCache .linkCache
    [(.execArgs ("mkdir -p \"" ++ c.home ++ "/.hab\"") [], o.mkdirHomeR),
     (.execArgs ("ln -sf /hab/cache \"" ++ c.home ++ "/.hab/\"") [], o.lnR)]

/-- Lines 100-110: ensure `/hab/cache` exists with runner ownership. -/
def ownershipPhase (o : Oracle) : StepR :=
  tryPhase .updatingCacheOwnership .updateCacheOwnership
    [(.execArgs "sudo mkdir -p /hab/cache" [], o.mkdirCacheR),
     (.execArgs "sudo chown -R runner:docker /hab/cache" [], o.chownCacheR),
     (.execArgs "sudo chmod g+s /hab/cache" [], o.chmodCacheR)]

/-- The install-if-absent block (the `else` of `if (await io.which('bio'))`). -/
def installBlock (c : Config) (o : Oracle) : List Event × Bool :=
  let i := installPhase o
  if i.ok then
    let u := userPhase o
    if u.ok then
      let v := verifyPhase o
      if v.ok then
        let l := linkPhase c o
        (i.events ++ u.events ++ v.events ++ l.events, l.ok)
      else (i.events ++ u.events ++ v.events, false)
    else (i.events ++ u.events, false)
  else (i.events, false)

/-- Result of everything up to (and including) the cache-ownership phase. -/
inductive PreOut
  | crash (m : String)
  | fail
  | passed
deriving DecidableEq, Repr

def exportEvents : List Event :=
  [.exportVar "HAB_NONINTERACTIVE" "true",
   .exportVar "HAB_BLDR_URL" "https://bldr.biome.sh",
   .exportVar "STUDIO_TYPE" "default"]

/-- Lines 32-110: environment export, binary presence check, conditional
installation, cache-ownership normalisation.  The three `exportVariable`
calls and `io.which` are not inside any `try`, so their failures crash the
routine unreported. -/
def prePhase (c : Config) (o : Oracle) : List Event × PreOut :=
  match o.exportNoninteractiveR with
  | some m => ([.exportVar "HAB_NONINTERACTIVE" "true"], .crash m)
  | none =>
    match o.exportBldrUrlR with
    | some m => ([.exportVar "HAB_NONINTERACTIVE" "true",
                  .exportVar "HAB_BLDR_URL" "https://bldr.biome.sh"], .crash m)
    | none =>
      match o.exportStudioTypeR with
      | some m => (exportEvents, .crash m)
      | none =>
        match o.whichErr with
        | some m => (exportEvents ++ [.whichBio], .crash m)
        | none =>
          if o.whichFound then
            let own := ownershipPhase o
            (exportEvents ++ [.whichBio, .infoMsg "Biome already installed!"] ++ own.events,
             if own.ok then .passed else .fail)
          else
            let ib := installBlock c o
            if ib.2 then
              let own := ownershipPhase o
              (exportEvents ++ [.whichBio] ++ ib.1 ++ own.events,
               if own.ok then .passed else .fail)
            else (exportEvents ++ [.whichBio] ++ ib.1, .fail)

structure PhaseR where
  fs : List String
  events : List Event
  ok : Bool

/-- Lines 113-146: the guarded cache-restore phase.  `fs` is the set of
existing paths; `fs.existsSync` is membership, `fs.writeFileSync` adds the
path, `rm -v` removes it. -/
def restorePhase (c : Config) (o : Oracle) (fs : List String) : PhaseR :=
  if RESTORE_LOCK_PATH ∈ fs then
    ⟨fs, [.infoMsg ("Skipping restoring, " ++ RESTORE_LOCK_PATH ++ " already exists")], true⟩
  else
    let e0 : List Event :=
      [.startGroup .restoringCache,
       .infoMsg "Initializing runner-writable /hab/cache",
       .execArgs "mkdir -p /hab/cache/artifacts" []]
    match o.mkdirArtifactsR with
    | some m => ⟨fs, e0 ++ [.setFailedMsg .restorePackageCache m, .endGroup], false⟩
    | none =>
      let e1 := e0 ++ [.infoMsg ("Writing restore lock: " ++ RESTORE_LOCK_PATH),
                       .writeFile RESTORE_LOCK_PATH]
      match o.writeLock1R with
      | some m => ⟨fs, e1 ++ [.setFailedMsg .restorePackageCache m, .endGroup], false⟩
      | none =>
        let fs1 := RESTORE_LOCK_PATH :: fs
        let e2 := e1 ++ [.infoMsg ("Calling restoreCache: " ++ resolvedCacheKey c),
                         .restoreCall ["/hab/cache/artifacts"] (resolvedCacheKey c)]
        match o.restoreErr with
        | some m => ⟨fs1, e2 ++ [.setFailedMsg .restorePackageCache m, .endGroup], false⟩
        | none =>
          let fs2 := o.restoreFiles ++ fs1
          let e3 := e2 ++
            [.infoMsg (match o.restoreHit with
                       | some id => "Restored cache " ++ id
                       | none => "No cache restored"),
             .infoMsg ("Re-writing restore lock: " ++ RESTORE_LOCK_PATH),
             .writeFile RESTORE_LOCK_PATH]
          match o.writeLock2R with
          | some m => ⟨fs2, e3 ++ [.setFailedMsg .restorePackageCache m, .endGroup], false⟩
          | none =>
            let fs3 := RESTORE_LOCK_PATH :: fs2
            if CACHE_LOCK_PATH ∈ fs3 then
              let e4 := e3 ++ [.infoMsg ("Erasing cache lock: " ++ CACHE_LOCK_PATH),
                               .execArgs ("rm -v \"" ++ CACHE_LOCK_PATH ++ "\"") []]
              match o.rmLockR with
              | some m => ⟨fs3, e4 ++ [.setFailedMsg .restorePackageCache m, .endGroup], false⟩
              | none => ⟨fs3.filter (fun p => p ≠ CACHE_LOCK_PATH), e4 ++ [.endGroup], true⟩
            else ⟨fs3, e3 ++ [.endGroup], true⟩

/-- Lines 150-160: install the dependency list in one `bio pkg install`
invocation (skipped when the list is empty). -/
def depsPhase (c : Config) (o : Oracle) : StepR :=
  tryPhase (.installingDeps c.depsList) .installDeps
    [(.pkgInstall c.depsList, o.pkgInstallR)]

/-- Lines 165-184: start the supervisor and wait for readiness. -/
def supStartPhase (o : Oracle) : StepR :=
  tryPhase .startingSupervisor .startSupervisor
    [(.execArgs "sudo mkdir -p /hab/sup/default" [], o.mkdirSupR),
     (.execArgs "sudo --preserve-env setsid bash"
        ["-c", "bio sup run > /hab/sup/default/sup.log 2>&1 &"], o.setsidR),
     (.infoMsg "Waiting for supervisor secret...", none),
     (.execArgs "bash"
        ["-c", "until test -f /hab/sup/default/CTL_SECRET; do echo -n \".\"; sleep .1; done; echo"],
      o.waitSecretR),
     (.infoMsg "Enabling sudoless access to supervisor API...", none),
     (.execArgs "sudo chgrp docker /hab/sup/default/CTL_SECRET" [], o.chgrpSecretR),
     (.execArgs "sudo chmod g+r /hab/sup/default/CTL_SECRET" [], o.chmodSecretR),
     (.infoMsg "Waiting for supervisor...", none),
     (.execArgs "bash" ["-c", "until bio svc status; do echo -n \".\"; sleep .1; done; echo"],
      o.waitStatusR)]

/-- Lines 186-198: load each service in order, failing fast. -/
def loadServices (o : Oracle) : List String → Nat → List Event × Bool
  | [], _ => ([], true)
  | svc :: rest, i =>
    match o.svcLoadR i with
    | some m =>
      ([.startGroup (.loadingService svc), .svcLoad svc,
        .setFailedMsg .loadService m, .endGroup], false)
    | none =>
      (.startGroup (.loadingService svc) :: .svcLoad svc :: .endGroup ::
         (loadServices o rest (i + 1)).1,
       (loadServices o rest (i + 1)).2)

/-- Lines 163-199: the supervisor block; an array directive (even an empty
one) is truthy, so it also starts the supervisor. -/
def supervisorBlock (c : Config) (o : Oracle) : List Event × Bool :=
  match c.supervisorVal with
  | .disabled => ([], true)
  | .enabled =>
    let s := supStartPhase o
    (s.events, s.ok)
  | .services svcs =>
    let s := supStartPhase o
    if s.ok then
      (s.events ++ (loadServices o svcs 0).1, (loadServices o svcs 0).2)
    else (s.events, false)

/-- Lines 201-211: enable sudoless package installation.  The JavaScript
template `... {} \;` contains the escape `\;`, which evaluates to `;`. -/
def finalPhase (o : Oracle) : StepR :=
  tryPhase .sudolessInstall .sudolessInstallF
    [(.execArgs "sudo chown -R runner:docker /hab/pkgs" [], o.chownPkgsR),
     (.execArgs "find /hab/pkgs -maxdepth 3 -type d -exec sudo chmod g+ws {} ;" [],
      o.findChmodR)]

/-- Lines 148-211: the phases after the cache restore. -/
def afterRestore (c : Config) (o : Oracle) : List Event × Bool :=
  let d : StepR := if c.depsList.isEmpty then ⟨[], true⟩ else depsPhase c o
  if d.ok then
    let sb := supervisorBlock c o
    if sb.2 then
      let f := finalPhase o
      (d.events ++ sb.1 ++ f.events, f.ok)
    else (d.events ++ sb.1, false)
  else (d.events, false)

/-- The whole setup routine `run` of `src/index.js`. -/
def indexRun (c : Config) (o : Oracle) (fs : List String) : RunResult :=
  match (prePhase c o).2 with
  | .crash m => ⟨fs, (prePhase c o).1, .crashed m⟩
  | .fail => ⟨fs, (prePhase c o).1, .halted⟩
  | .passed =>
    let r := restorePhase c o fs
    if r.ok then
      let ar := afterRestore c o
      ⟨r.fs, (prePhase c o).1 ++ r.events ++ ar.1,
       if ar.2 then .completed else .halted⟩
    else ⟨r.fs, (prePhase c o).1 ++ r.events, .halted⟩

/-! ## Teardown routine (`src/post.js`, `run`) -/

def postRun (o : PostOracle) (fs : List String) : RunResult :=
  if POST_CACHE_LOCK_PATH ∈ fs then
    ⟨fs, [.infoMsg ("Skipping caching, " ++ POST_CACHE_LOCK_PATH ++ " already exists")],
     .completed⟩
  else
    let e0 : List Event := [.startGroup .savingPackageCache, .writeFile POST_CACHE_LOCK_PATH]
    match o.writeLockR with
    | some m => ⟨fs, e0 ++ [.setFailedMsg .savePackageCache m, .endGroup], .halted⟩
    | none =>
      let fs1 := POST_CACHE_LOCK_PATH :: fs
      let e1 := e0 ++ [Event.saveCall ["/hab/pkgs"] "hab-pkgs"]
      match o.saveErr with
      | some m => ⟨fs1, e1 ++ [.setFailedMsg .savePackageCache m, .endGroup], .halted⟩
      | none =>
        ⟨fs1,
         e1 ++ [.infoMsg (match o.saveId with
                          | some i => "Saved cache " ++ i
                          | none => "No cache saved"),
                .endGroup],
         .completed⟩

/-! ## `execOutput` (`src/index.js`, lines 214-226) -/

/-- `execOutput` accumulates every chunk the command writes on standard
output (`stdout += buffer`) and, when the awaited `exec` resolves (exit code
zero), returns the accumulated string trimmed; a non-zero exit rejects, so
no string is returned. -/
def execOutput (chunks : List String) (exitOk : Bool) : Option String :=
  if exitOk then some (jsTrim (chunks.foldl (fun a b => a ++ b) "")) else none

/-! ## Membership structure of the event traces -/

theorem runSteps_fst_subset {steps : List (Event × Option String)} {e : Event}
    (h : e ∈ (runSteps steps).1) : e ∈ steps.map Prod.fst := by
  induction steps with
  | nil => simp [runSteps] at h
  | cons p rest ih =>
    obtain ⟨pe, pr⟩ := p
    cases pr with
    | some m =>
      simp [runSteps] at h
      simp [h]
    | none =>
      simp only [runSteps, List.mem_cons] at h
      rcases h with h | h
      · simp [h]
      · simp [ih h]

theorem tryPhase_mem {g : GroupTag} {t : FailTag} {steps : List (Event × Option String)}
    {e : Event} (h : e ∈ (tryPhase g t steps).events) :
    e = .startGroup g ∨ e ∈ steps.map Prod.fst ∨ (∃ m, e = .setFailedMsg t m) ∨
      e = .endGroup := by
  unfold tryPhase at h
  rcases h2 : (runSteps steps).2 with _ | m <;> rw [h2] at h
  · rcases List.mem_cons.mp h with h | h
    · exact Or.inl h
    · rcases List.mem_append.mp h with h | h
      · exact Or.inr (Or.inl (runSteps_fst_subset h))
      · exact Or.inr (Or.inr (Or.inr (List.mem_singleton.mp h)))
  · rcases List.mem_cons.mp h with h | h
    · exact Or.inl h
    · rcases List.mem_append.mp h with h | h
      · exact Or.inr (Or.inl (runSteps_fst_subset h))
      · rcases List.mem_cons.mp h with h | h
        · exact Or.inr (Or.inr (Or.inl ⟨m, h⟩))
        · exact Or.inr (Or.inr (Or.inr (List.mem_singleton.mp h)))

theorem installPhase_mem {o : Oracle} {e : Event} (h : e ∈ (installPhase o).events) :
    e = .startGroup .installingBiome ∨ e = .execArgs wgetCmd [] ∨
    e = .execArgs "tar xf bio-1.6.372-x86_64-linux.tar.gz" [] ∨
    e = .execArgs "sudo mv bio /usr/bin" [] ∨
    e = .execArgs "sudo chmod +x /usr/bin/bio" [] ∨
    e = .rmRF "bio-1.6.372-x86_64-linux.tar.gz" ∨
    (∃ m, e = .setFailedMsg .installBiome m) ∨ e = .endGroup := by
  unfold installPhase at h
  rcases tryPhase_mem h with h | h | h | h <;> (try simp at h) <;> tauto

theorem userPhase_mem {o : Oracle} {e : Event} (h : e ∈ (userPhase o).events) :
    e = .startGroup .creatingHabUser ∨ e = .execArgs "sudo groupadd hab" [] ∨
    e = .execArgs "sudo useradd -g hab -G docker hab" [] ∨
    e = .rmRF "/tmp/hab-install.sh" ∨
    (∃ m, e = .setFailedMsg .createHabUser m) ∨ e = .endGroup := by
  unfold userPhase at h
  rcases tryPhase_mem h with h | h | h | h <;> (try simp at h) <;> tauto

theorem verifyPhase_mem {o : Oracle} {e : Event} (h : e ∈ (verifyPhase o).events) :
    e = .execArgs "bio --version" [] ∨ (∃ m, e = .setFailedMsg .verifyBio m) := by
  unfold verifyPhase at h
  rcases h2 : o.versionR with _ | m <;> rw [h2] at h <;> simp at h <;>
    rcases h with h | h <;> simp_all

theorem linkPhase_mem {c : Config} {o : Oracle} {e : Event}
    (h : e ∈ (linkPhase c o).events) :
    e = .startGroup .linkingCache ∨
    e = .execArgs ("mkdir -p \"" ++ c.home ++ "/.hab\"") [] ∨
    e = .execArgs ("ln -sf /hab/cache \"" ++ c.home ++ "/.hab/\"") [] ∨
    (∃ m, e = .setFailedMsg .linkCache m) ∨ e = .endGroup := by
  unfold linkPhase at h
  rcases tryPhase_mem h with h | h | h | h <;> (try simp at h) <;> tauto

theorem ownershipPhase_mem {o : Oracle} {e : Event} (h : e ∈ (ownershipPhase o).events) :
    e = .startGroup .updatingCacheOwnership ∨ e = .execArgs "sudo mkdir -p /hab/cache" [] ∨
    e = .execArgs "sudo chown -R runner:docker /hab/cache" [] ∨
    e = .execArgs "sudo chmod g+s /hab/cache" [] ∨
    (∃ m, e = .setFailedMsg .updateCacheOwnership m) ∨ e = .endGroup := by
  unfold ownershipPhase at h
  rcases tryPhase_mem h with h | h | h | h <;> (try simp at h) <;> tauto

theorem depsPhase_mem {c : Config} {o : Oracle} {e : Event}
    (h : e ∈ (depsPhase c o).events) :
    e = .startGroup (.installingDeps c.depsList) ∨ e = .pkgInstall c.depsList ∨
    (∃ m, e = .setFailedMsg .installDeps m) ∨ e = .endGroup := by
  unfold depsPhase at h
  rcases tryPhase_mem h with h | h | h | h <;> (try simp at h) <;> tauto

theorem supStartPhase_mem {o : Oracle} {e : Event} (h : e ∈ (supStartPhase o).events) :
    e = .startGroup .startingSupervisor ∨ e = .execArgs "sudo mkdir -p /hab/sup/default" [] ∨
    e = .execArgs "sudo --preserve-env setsid bash"
          ["-c", "bio sup run > /hab/sup/default/sup.log 2>&1 &"] ∨
    e = .execArgs "bash"
          ["-c",
           "until test -f /hab/sup/default/CTL_SECRET; do echo -n \".\"; sleep .1; done; echo"] ∨
    e = .execArgs "sudo chgrp docker /hab/sup/default/CTL_SECRET" [] ∨
    e = .execArgs "sudo chmod g+r /hab/sup/default/CTL_SECRET" [] ∨
    e = .execArgs "bash" ["-c", "until bio svc status; do echo -n \".\"; sleep .1; done; echo"] ∨
    e = .infoMsg "Waiting for supervisor secret..." ∨
    e = .infoMsg "Enabling sudoless access to supervisor API..." ∨
    e = .infoMsg "Waiting for supervisor..." ∨
    (∃ m, e = .setFailedMsg .startSupervisor m) ∨ e = .endGroup := by
  unfold supStartPhase at h
  rcases tryPhase_mem h with h | h | h | h <;> (try simp at h) <;> tauto

theorem finalPhase_mem {o : Oracle} {e : Event} (h : e ∈ (finalPhase o).events) :
    e = .startGroup .sudolessInstall ∨ e = .execArgs "sudo chown -R runner:docker /hab/pkgs" [] ∨
    e = .execArgs "find /hab/pkgs -maxdepth 3 -type d -exec sudo chmod g+ws {} ;" [] ∨
    (∃ m, e = .setFailedMsg .sudolessInstallF m) ∨ e = .endGroup := by
  unfold finalPhase at h
  rcases tryPhase_mem h with h | h | h | h <;> (try simp at h) <;> tauto

theorem loadServices_mem {o : Oracle} {e : Event} :
    ∀ {svcs : List String} {i : Nat}, e ∈ (loadServices o svcs i).1 →
    (∃ svc ∈ svcs, e = .startGroup (.loadingService svc)) ∨
    (∃ svc ∈ svcs, e = .svcLoad svc) ∨
    (∃ m, e = .setFailedMsg .loadService m) ∨ e = .endGroup := by
  intro svcs
  induction svcs with
  | nil => intro i h; simp [loadServices] at h
  | cons svc rest ih =>
    intro i h
    rcases h2 : o.svcLoadR i with _ | m <;>
      simp only [loadServices, h2, List.mem_cons, List.mem_singleton] at h
    · rcases h with h | h | h | h
      · exact Or.inl ⟨svc, by simp, h⟩
      · exact Or.inr (Or.inl ⟨svc, by simp, h⟩)
      · exact Or.inr (Or.inr (Or.inr h))
      · rcases ih h with ⟨s, hs, he⟩ | ⟨s, hs, he⟩ | hh | hh
        · exact Or.inl ⟨s, by simp [hs], he⟩
        · exact Or.inr (Or.inl ⟨s, by simp [hs], he⟩)
        · exact Or.inr (Or.inr (Or.inl hh))
        · exact Or.inr (Or.inr (Or.inr hh))
    · rcases h with h | h | h | h | h
      · exact Or.inl ⟨svc, by simp, h⟩
      · exact Or.inr (Or.inl ⟨svc, by simp, h⟩)
      · exact Or.inr (Or.inr (Or.inl ⟨m, h⟩))
      · exact Or.inr (Or.inr (Or.inr h))
      · simp at h

theorem supervisorBlock_mem {c : Config} {o : Oracle} {e : Event}
    (h : e ∈ (supervisorBlock c o).1) :
    e ∈ (supStartPhase o).events ∨
    (∃ svcs, c.supervisorVal = .services svcs ∧ e ∈ (loadServices o svcs 0).1) := by
  rcases h2 : c.supervisorVal with _ | _ | svcs <;>
    cases hs : (supStartPhase o).ok <;>
      simp only [supervisorBlock, h2, hs, Bool.false_eq_true, if_true, if_false,
        List.mem_append, List.not_mem_nil, ite_true, ite_false] at h
  · exact Or.inl h
  · exact Or.inl h
  · exact Or.inl h
  · rcases h with h | h
    · exact Or.inl h
    · exact Or.inr ⟨svcs, rfl, h⟩

theorem installBlock_mem {c : Config} {o : Oracle} {e : Event}
    (h : e ∈ (installBlock c o).1) :
    e ∈ (installPhase o).events ∨ e ∈ (userPhase o).events ∨
    e ∈ (verifyPhase o).events ∨ e ∈ (linkPhase c o).events := by
  cases h1 : (installPhase o).ok <;> cases h2 : (userPhase o).ok <;>
    cases h3 : (verifyPhase o).ok <;>
      simp only [installBlock, h1, h2, h3, Bool.false_eq_true, if_true, if_false,
        List.mem_append, ite_true, ite_false] at h <;>
      tauto

theorem afterRestore_mem {c : Config} {o : Oracle} {e : Event}
    (h : e ∈ (afterRestore c o).1) :
    (c.depsList ≠ [] ∧ e ∈ (depsPhase c o).events) ∨ e ∈ (supStartPhase o).events ∨
    (∃ svcs, c.supervisorVal = .services svcs ∧ e ∈ (loadServices o svcs 0).1) ∨
    e ∈ (finalPhase o).events := by
  have hsb : ∀ x ∈ (supervisorBlock c o).1,
      x ∈ (supStartPhase o).events ∨
        (∃ svcs, c.supervisorVal = .services svcs ∧ x ∈ (loadServices o svcs 0).1) :=
    fun x hx => supervisorBlock_mem hx
  cases hd : c.depsList.isEmpty <;>
    cases hdo : (depsPhase c o).ok <;>
      cases hs : (supervisorBlock c o).2 <;>
        simp only [afterRestore, hd, hdo, hs, Bool.false_eq_true, if_true, if_false,
          List.mem_append, List.not_mem_nil, ite_true, ite_false, List.nil_append,
          false_or] at h
  all_goals
    first
    | (have hne : c.depsList ≠ [] := by
         intro hnil
         rw [hnil] at hd
         simp [List.isEmpty] at hd
       rcases h with (h | h) | h
       · exact Or.inl ⟨hne, h⟩
       · rcases hsb e h with h | h
         · exact Or.inr (Or.inl h)
         · exact Or.inr (Or.inr (Or.inl h))
       · exact Or.inr (Or.inr (Or.inr h)))
    | (have hne : c.depsList ≠ [] := by
         intro hnil
         rw [hnil] at hd
         simp [List.isEmpty] at hd
       rcases h with h | h
       · exact Or.inl ⟨hne, h⟩
       · rcases hsb e h with h | h
         · exact Or.inr (Or.inl h)
         · exact Or.inr (Or.inr (Or.inl h)))
    | (have hne : c.depsList ≠ [] := by
         intro hnil
         rw [hnil] at hd
         simp [List.isEmpty] at hd
       exact Or.inl ⟨hne, h⟩)
    | (rcases h with h | h
       · rcases hsb e h with h | h
         · exact Or.inr (Or.inl h)
         · exact Or.inr (Or.inr (Or.inl h))
       · exact Or.inr (Or.inr (Or.inr h)))
    | (rcases hsb e h with h | h
       · exact Or.inr (Or.inl h)
       · exact Or.inr (Or.inr (Or.inl h)))

theorem prePhase_mem {c : Config} {o : Oracle} {e : Event} (h : e ∈ (prePhase c o).1) :
    e ∈ exportEvents ∨ e = .whichBio ∨ e = .infoMsg "Biome already installed!" ∨
    e ∈ (installBlock c o).1 ∨ e ∈ (ownershipPhase o).events := by
  rcases h1 : o.exportNoninteractiveR with _ | m1 <;>
    rcases h2 : o.exportBldrUrlR with _ | m2 <;>
      rcases h3 : o.exportStudioTypeR with _ | m3 <;>
        rcases h4 : o.whichErr with _ | m4 <;>
          cases h5 : o.whichFound <;>
            cases h6 : (installBlock c o).2 <;>
              simp only [prePhase, h1, h2, h3, h4, h5, h6, Bool.false_eq_true, if_true,
                if_false, ite_true, ite_false, List.mem_append, List.mem_cons,
                List.mem_singleton, List.not_mem_nil, exportEvents, or_false] at h <;>
              simp only [exportEvents, List.mem_cons, List.not_mem_nil] <;>
              tauto

/-- When the binary is found (and `io.which` resolves), the pre-restore trace
contains no event of the installation block. -/
theorem prePhase_found_mem {c : Config} {o : Oracle} {e : Event}
    (hwe : o.whichErr = none) (hwf : o.whichFound = true) (h : e ∈ (prePhase c o).1) :
    e ∈ exportEvents ∨ e = .whichBio ∨ e = .infoMsg "Biome already installed!" ∨
    e ∈ (ownershipPhase o).events := by
  rcases h1 : o.exportNoninteractiveR with _ | m1 <;>
    rcases h2 : o.exportBldrUrlR with _ | m2 <;>
      rcases h3 : o.exportStudioTypeR with _ | m3 <;>
        simp only [prePhase, h1, h2, h3, hwe, hwf, if_true, ite_true, List.mem_append,
          List.mem_cons, List.mem_singleton, List.not_mem_nil, exportEvents,
          or_false] at h <;>
        simp only [exportEvents, List.mem_cons, List.not_mem_nil] <;>
        tauto

/-! ## Equation lemmas for `indexRun` -/

theorem indexRun_crash {c : Config} {o : Oracle} {fs : List String} {m : String}
    (h : (prePhase c o).2 = .crash m) :
    indexRun c o fs = ⟨fs, (prePhase c o).1, .crashed m⟩ := by
  unfold indexRun; rw [h]

theorem indexRun_fail {c : Config} {o : Oracle} {fs : List String}
    (h : (prePhase c o).2 = .fail) :
    indexRun c o fs = ⟨fs, (prePhase c o).1, .halted⟩ := by
  unfold indexRun; rw [h]

theorem indexRun_restoreFail {c : Config} {o : Oracle} {fs : List String}
    (h1 : (prePhase c o).2 = .passed) (h2 : (restorePhase c o fs).ok = false) :
    indexRun c o fs =
      ⟨(restorePhase c o fs).fs, (prePhase c o).1 ++ (restorePhase c o fs).events,
       .halted⟩ := by
  unfold indexRun; rw [h1]; simp [h2]

theorem indexRun_restoreOk {c : Config} {o : Oracle} {fs : List String}
    (h1 : (prePhase c o).2 = .passed) (h2 : (restorePhase c o fs).ok = true) :
    indexRun c o fs =
      ⟨(restorePhase c o fs).fs,
       (prePhase c o).1 ++ (restorePhase c o fs).events ++ (afterRestore c o).1,
       if (afterRestore c o).2 then .completed else .halted⟩ := by
  unfold indexRun; rw [h1]; simp [h2]

theorem indexRun_mem {c : Config} {o : Oracle} {fs : List String} {e : Event}
    (h : e ∈ (indexRun c o fs).events) :
    e ∈ (prePhase c o).1 ∨ e ∈ (restorePhase c o fs).events ∨ e ∈ (afterRestore c o).1 := by
  rcases h2 : (prePhase c o).2 with m | _ | _
  · rw [indexRun_crash h2] at h; exact Or.inl h
  · rw [indexRun_fail h2] at h; exact Or.inl h
  · by_cases hr : (restorePhase c o fs).ok
    · rw [indexRun_restoreOk h2 hr] at h
      simp only [List.mem_append] at h; tauto
    · rw [indexRun_restoreFail h2 (by simpa using hr)] at h
      simp only [List.mem_append] at h; tauto

/-! ## Classifying events -/

/-- The commands run only by the installation sub-phases: download and
extraction, moving the binary in place, user/group creation, version
verification. -/
def installCmds : List String :=
  [wgetCmd, "tar xf bio-1.6.372-x86_64-linux.tar.gz", "sudo mv bio /usr/bin",
   "sudo chmod +x /usr/bin/bio", "sudo groupadd hab", "sudo useradd -g hab -G docker hab",
   "bio --version"]

/-- Events that belong to the installation block: its three group markers,
its `io.rmRF` clean-ups, and its commands (the home-directory `mkdir` and the
`ln -sf` symlink commands are covered by the `linkingCache` group marker). -/
def isInstallEvt : Event → Bool
  | .startGroup .installingBiome => true
  | .startGroup .creatingHabUser => true
  | .startGroup .linkingCache => true
  | .rmRF _ => true
  | .execArgs cmd _ => installCmds.contains cmd
  | _ => false

theorem countRestore_eq_zero {es : List Event} (h : ∀ e ∈ es, e.isRestore = false) :
    countRestore es = 0 :=
  List.countP_eq_zero.mpr (by intro a ha; simp [h a ha])

theorem countSave_eq_zero {es : List Event} (h : ∀ e ∈ es, e.isSave = false) :
    countSave es = 0 :=
  List.countP_eq_zero.mpr (by intro a ha; simp [h a ha])

/-- Every event of a non-cache phase: no restore call, no save call, no
package installation. -/
def benign (e : Event) : Prop :=
  e.isRestore = false ∧ e.isSave = false ∧ ∀ l, e ≠ .pkgInstall l

theorem installPhase_benign {o : Oracle} {e : Event} (h : e ∈ (installPhase o).events) :
    benign e := by
  rcases installPhase_mem h with h | h | h | h | h | h | ⟨m, h⟩ | h <;> subst h <;>
    exact ⟨rfl, rfl, fun l hl => Event.noConfusion hl⟩

theorem userPhase_benign {o : Oracle} {e : Event} (h : e ∈ (userPhase o).events) :
    benign e := by
  rcases userPhase_mem h with h | h | h | h | ⟨m, h⟩ | h <;> subst h <;>
    exact ⟨rfl, rfl, fun l hl => Event.noConfusion hl⟩

theorem verifyPhase_benign {o : Oracle} {e : Event} (h : e ∈ (verifyPhase o).events) :
    benign e := by
  rcases verifyPhase_mem h with h | ⟨m, h⟩ <;> subst h <;>
    exact ⟨rfl, rfl, fun l hl => Event.noConfusion hl⟩

theorem linkPhase_benign {c : Config} {o : Oracle} {e : Event}
    (h : e ∈ (linkPhase c o).events) : benign e := by
  rcases linkPhase_mem h with h | h | h | ⟨m, h⟩ | h <;> subst h <;>
    exact ⟨rfl, rfl, fun l hl => Event.noConfusion hl⟩

theorem ownershipPhase_benign {o : Oracle} {e : Event} (h : e ∈ (ownershipPhase o).events) :
    benign e ∧ isInstallEvt e = false := by
  rcases ownershipPhase_mem h with h | h | h | h | ⟨m, h⟩ | h <;> subst h <;>
    exact ⟨⟨rfl, rfl, fun l hl => Event.noConfusion hl⟩, rfl⟩

theorem supStartPhase_benign {o : Oracle} {e : Event} (h : e ∈ (supStartPhase o).events) :
    benign e ∧ isInstallEvt e = false := by
  rcases supStartPhase_mem h with h | h | h | h | h | h | h | h | h | h | ⟨m, h⟩ | h <;>
    subst h <;> exact ⟨⟨rfl, rfl, fun l hl => Event.noConfusion hl⟩, rfl⟩

theorem finalPhase_benign {o : Oracle} {e : Event} (h : e ∈ (finalPhase o).events) :
    benign e ∧ isInstallEvt e = false := by
  rcases finalPhase_mem h with h | h | h | ⟨m, h⟩ | h <;> subst h <;>
    exact ⟨⟨rfl, rfl, fun l hl => Event.noConfusion hl⟩, rfl⟩

theorem loadServices_benign {o : Oracle} {svcs : List String} {i : Nat} {e : Event}
    (h : e ∈ (loadServices o svcs i).1) : benign e ∧ isInstallEvt e = false := by
  rcases loadServices_mem h with ⟨s, _, he⟩ | ⟨s, _, he⟩ | ⟨m, he⟩ | he <;> subst he <;>
    exact ⟨⟨rfl, rfl, fun l hl => Event.noConfusion hl⟩, rfl⟩

theorem depsPhase_restoreSaveFree {c : Config} {o : Oracle} {e : Event}
    (h : e ∈ (depsPhase c o).events) :
    e.isRestore = false ∧ e.isSave = false ∧ isInstallEvt e = false := by
  rcases depsPhase_mem h with h | h | ⟨m, h⟩ | h <;> subst h <;> exact ⟨rfl, rfl, rfl⟩

theorem prePhase_benign {c : Config} {o : Oracle} {e : Event} (h : e ∈ (prePhase c o).1) :
    benign e := by
  rcases prePhase_mem h with h | h | h | h | h
  · simp only [exportEvents, List.mem_cons, List.not_mem_nil, or_false] at h
    rcases h with rfl | rfl | rfl <;> exact ⟨rfl, rfl, fun l hl => Event.noConfusion hl⟩
  · subst h; exact ⟨rfl, rfl, fun l hl => Event.noConfusion hl⟩
  · subst h; exact ⟨rfl, rfl, fun l hl => Event.noConfusion hl⟩
  · rcases installBlock_mem h with h | h | h | h
    · exact installPhase_benign h
    · exact userPhase_benign h
    · exact verifyPhase_benign h
    · exact linkPhase_benign h
  · exact (ownershipPhase_benign h).1

theorem afterRestore_restoreSaveFree {c : Config} {o : Oracle} {e : Event}
    (h : e ∈ (afterRestore c o).1) :
    e.isRestore = false ∧ e.isSave = false ∧ isInstallEvt e = false := by
  rcases afterRestore_mem h with ⟨_, h⟩ | h | ⟨svcs, _, h⟩ | h
  · exact depsPhase_restoreSaveFree h
  · obtain ⟨⟨h1, h2, _⟩, h4⟩ := supStartPhase_benign h; exact ⟨h1, h2, h4⟩
  · obtain ⟨⟨h1, h2, _⟩, h4⟩ := loadServices_benign h; exact ⟨h1, h2, h4⟩
  · obtain ⟨⟨h1, h2, _⟩, h4⟩ := finalPhase_benign h; exact ⟨h1, h2, h4⟩

/-! ## Restore-phase facts -/

theorem restorePhase_skip {c : Config} {o : Oracle} {fs : List String}
    (h : RESTORE_LOCK_PATH ∈ fs) :
    restorePhase c o fs =
      ⟨fs, [.infoMsg ("Skipping restoring, " ++ RESTORE_LOCK_PATH ++ " already exists")],
       true⟩ := by
  unfold restorePhase; rw [if_pos h]

theorem restorePhase_count_le {c : Config} {o : Oracle} {fs : List String} :
    countRestore (restorePhase c o fs).events ≤ 1 := by
  by_cases h1 : RESTORE_LOCK_PATH ∈ fs
  · rw [restorePhase_skip h1]
    simp [countRestore, Event.isRestore]
  · rcases h2 : o.mkdirArtifactsR with _ | m2 <;>
      rcases h3 : o.writeLock1R with _ | m3 <;>
        rcases h4 : o.restoreErr with _ | m4 <;>
          rcases h5 : o.writeLock2R with _ | m5 <;>
            rcases h6 : o.rmLockR with _ | m6 <;>
              simp [restorePhase, h1, h2, h3, h4, h5, h6, countRestore, Event.isRestore,
                List.countP_cons, List.countP_append] <;>
              split <;>
              simp [countRestore, Event.isRestore, List.countP_cons, List.countP_append]

theorem restorePhase_marker {c : Config} {o : Oracle} {fs : List String}
    (h : 1 ≤ countRestore (restorePhase c o fs).events) :
    RESTORE_LOCK_PATH ∈ (restorePhase c o fs).fs := by
  by_cases h1 : RESTORE_LOCK_PATH ∈ fs
  · rw [restorePhase_skip h1]; exact h1
  · rcases h2 : o.mkdirArtifactsR with _ | m2 <;>
      rcases h3 : o.writeLock1R with _ | m3 <;>
        rcases h4 : o.restoreErr with _ | m4 <;>
          rcases h5 : o.writeLock2R with _ | m5 <;>
            rcases h6 : o.rmLockR with _ | m6 <;>
              simp [restorePhase, h1, h2, h3, h4, h5, h6, countRestore, Event.isRestore,
                List.countP_cons, List.countP_append] at h ⊢ <;>
              first
              | rfl
              | (split <;>
                 simp [List.mem_filter, List.mem_append]) <;>
                first
                | rfl
                | decide
                | simp

theorem restorePhase_no_save_install {c : Config} {o : Oracle} {fs : List String}
    {e : Event} (h : e ∈ (restorePhase c o fs).events) :
    e.isSave = false ∧ (∀ l, e ≠ .pkgInstall l) ∧ isInstallEvt e = false := by
  by_cases h1 : RESTORE_LOCK_PATH ∈ fs
  · rw [restorePhase_skip h1] at h
    simp only [List.mem_singleton] at h
    subst h; exact ⟨rfl, fun l hl => Event.noConfusion hl, rfl⟩
  · rcases h2 : o.mkdirArtifactsR with _ | m2 <;>
      rcases h3 : o.writeLock1R with _ | m3 <;>
        rcases h4 : o.restoreErr with _ | m4 <;>
          rcases h5 : o.writeLock2R with _ | m5 <;>
            rcases h6 : o.rmLockR with _ | m6 <;>
              simp only [restorePhase, h1, h2, h3, h4, h5, h6, if_false, ite_false,
                List.mem_append, List.mem_cons, List.mem_singleton, List.not_mem_nil,
                or_false, false_or] at h <;>
              (try split at h) <;>
              (try simp only [List.mem_append, List.mem_cons, List.mem_singleton,
                List.not_mem_nil, or_false, false_or] at h) <;>
              (try (repeat' rcases h with h | h)) <;> (try subst h) <;>
              first
              | exact ⟨rfl, fun l hl => Event.noConfusion hl, rfl⟩
              | exact ⟨rfl, fun l hl => Event.noConfusion hl, by decide⟩

/-! ## Setup-routine counting facts -/

theorem indexRun_countRestore_le {c : Config} {o : Oracle} {fs : List String} :
    countRestore (indexRun c o fs).events ≤ 1 := by
  have hpre : countRestore (prePhase c o).1 = 0 :=
    countRestore_eq_zero fun e he => (prePhase_benign he).1
  have hafter : countRestore (afterRestore c o).1 = 0 :=
    countRestore_eq_zero fun e he => (afterRestore_restoreSaveFree he).1
  rcases h2 : (prePhase c o).2 with m | _ | _
  · rw [indexRun_crash h2]; simp [hpre]
  · rw [indexRun_fail h2]; simp [hpre]
  · have hres := @restorePhase_count_le c o fs
    by_cases hr : (restorePhase c o fs).ok
    · rw [indexRun_restoreOk h2 hr]
      simp only [countRestore, List.countP_append] at hpre hafter hres ⊢
      omega
    · rw [indexRun_restoreFail h2 (by simpa using hr)]
      simp only [countRestore, List.countP_append] at hpre hafter hres ⊢
      omega

theorem indexRun_countRestore_marker {c : Config} {o : Oracle} {fs : List String}
    (h : 1 ≤ countRestore (indexRun c o fs).events) :
    RESTORE_LOCK_PATH ∈ (indexRun c o fs).fs := by
  have hpre : countRestore (prePhase c o).1 = 0 :=
    countRestore_eq_zero fun e he => (prePhase_benign he).1
  have hafter : countRestore (afterRestore c o).1 = 0 :=
    countRestore_eq_zero fun e he => (afterRestore_restoreSaveFree he).1
  rcases h2 : (prePhase c o).2 with m | _ | _
  · rw [indexRun_crash h2] at h
    rw [hpre] at h; omega
  · rw [indexRun_fail h2] at h
    rw [hpre] at h; omega
  · by_cases hr : (restorePhase c o fs).ok
    · rw [indexRun_restoreOk h2 hr] at h ⊢
      apply restorePhase_marker
      simp only [countRestore, List.countP_append] at h hpre hafter ⊢
      omega
    · rw [indexRun_restoreFail h2 (by simpa using hr)] at h ⊢
      apply restorePhase_marker
      simp only [countRestore, List.countP_append] at h hpre hafter ⊢
      omega

theorem indexRun_skip_restore {c : Config} {o : Oracle} {fs : List String}
    (h : RESTORE_LOCK_PATH ∈ fs) :
    countRestore (indexRun c o fs).events = 0 ∧
      RESTORE_LOCK_PATH ∈ (indexRun c o fs).fs := by
  have hpre : countRestore (prePhase c o).1 = 0 :=
    countRestore_eq_zero fun e he => (prePhase_benign he).1
  have hafter : countRestore (afterRestore c o).1 = 0 :=
    countRestore_eq_zero fun e he => (afterRestore_restoreSaveFree he).1
  rcases h2 : (prePhase c o).2 with m | _ | _
  · rw [indexRun_crash h2]; exact ⟨hpre, h⟩
  · rw [indexRun_fail h2]; exact ⟨hpre, h⟩
  · have hrp := @restorePhase_skip c o fs h
    have hr : (restorePhase c o fs).ok = true := by rw [hrp]
    rw [indexRun_restoreOk h2 hr]
    constructor
    · simp only [countRestore, List.countP_append]
      simp only [countRestore] at hpre hafter
      rw [hpre, hafter, hrp]
      simp [Event.isRestore]
    · rw [hrp]; exact h

/-! ## Teardown-routine facts -/

theorem postRun_skip {o : PostOracle} {fs : List String} (h : POST_CACHE_LOCK_PATH ∈ fs) :
    postRun o fs =
      ⟨fs, [.infoMsg ("Skipping caching, " ++ POST_CACHE_LOCK_PATH ++ " already exists")],
       .completed⟩ := by
  unfold postRun; rw [if_pos h]

theorem postRun_countSave_le {o : PostOracle} {fs : List String} :
    countSave (postRun o fs).events ≤ 1 := by
  by_cases h1 : POST_CACHE_LOCK_PATH ∈ fs
  · rw [postRun_skip h1]; simp [countSave, Event.isSave]
  · rcases h2 : o.writeLockR with _ | m2 <;>
      rcases h3 : o.saveErr with _ | m3 <;>
        simp [postRun, h1, h2, h3, countSave, Event.isSave, List.countP_cons,
          List.countP_append]

theorem postRun_countSave_marker {o : PostOracle} {fs : List String}
    (h : 1 ≤ countSave (postRun o fs).events) :
    POST_CACHE_LOCK_PATH ∈ (postRun o fs).fs := by
  by_cases h1 : POST_CACHE_LOCK_PATH ∈ fs
  · rw [postRun_skip h1]; exact h1
  · rcases h2 : o.writeLockR with _ | m2 <;>
      rcases h3 : o.saveErr with _ | m3 <;>
        simp [postRun, h1, h2, h3, countSave, Event.isSave, List.countP_cons,
          List.countP_append] at h ⊢

theorem postRun_skip_save {o : PostOracle} {fs : List String}
    (h : POST_CACHE_LOCK_PATH ∈ fs) :
    countSave (postRun o fs).events = 0 ∧ POST_CACHE_LOCK_PATH ∈ (postRun o fs).fs := by
  rw [postRun_skip h]
  exact ⟨by simp [countSave, Event.isSave], h⟩

theorem restorePhase_restore_args {c : Config} {o : Oracle} {fs : List String}
    {ps : List String} {k : String}
    (h : Event.restoreCall ps k ∈ (restorePhase c o fs).events) :
    ps = ["/hab/cache/artifacts"] ∧ k = resolvedCacheKey c := by
  by_cases h1 : RESTORE_LOCK_PATH ∈ fs
  · rw [restorePhase_skip h1] at h; simp at h
  · rcases h2 : o.mkdirArtifactsR with _ | m2 <;>
      rcases h3 : o.writeLock1R with _ | m3 <;>
        rcases h4 : o.restoreErr with _ | m4 <;>
          rcases h5 : o.writeLock2R with _ | m5 <;>
            rcases h6 : o.rmLockR with _ | m6 <;>
              simp only [restorePhase, h1, h2, h3, h4, h5, h6, if_false, ite_false,
                List.mem_append, List.mem_cons, List.mem_singleton, List.not_mem_nil,
                or_false, false_or] at h <;>
              (try split at h) <;>
              (try simp only [List.mem_append, List.mem_cons, List.mem_singleton,
                List.not_mem_nil, or_false, false_or] at h) <;>
              (try (repeat' rcases h with h | h)) <;>
              first
              | exact absurd h (by simp)
              | exact ⟨rfl, rfl⟩
              | (refine ⟨?_, ?_⟩ <;> injection h <;> simp_all)

theorem postRun_save_args {o : PostOracle} {fs : List String} {ps : List String}
    {k : String} (h : Event.saveCall ps k ∈ (postRun o fs).events) :
    ps = ["/hab/pkgs"] ∧ k = "hab-pkgs" := by
  by_cases h1 : POST_CACHE_LOCK_PATH ∈ fs
  · rw [postRun_skip h1] at h; simp at h
  · rcases h2 : o.writeLockR with _ | m2 <;>
      rcases h3 : o.saveErr with _ | m3 <;>
        simp only [postRun, h1, h2, h3, if_false, ite_false, List.mem_append,
          List.mem_cons, List.mem_singleton, List.not_mem_nil, or_false,
          false_or] at h <;>
        (try (repeat' rcases h with h | h)) <;>
        first
        | exact absurd h (by simp)
        | exact ⟨rfl, rfl⟩
        | (refine ⟨?_, ?_⟩ <;> injection h <;> simp_all)

/-! ## Concrete configurations and oracles for instantiations -/

def cfgBase : Config where
  deps := ""
  supervisor := ""
  cacheKey := ""
  githubWorkflow := "wf"
  home := "/home/runner"

/-- The all-successful oracle: the binary is already present, the restore
resolves with a cache hit, and every command succeeds. -/
def oracleOk : Oracle where
  exportNoninteractiveR := none
  exportBldrUrlR := none
  exportStudioTypeR := none
  whichErr := none
  whichFound := true
  wgetR := none
  tarR := none
  mvR := none
  chmodBioR := none
  rmTarR := none
  groupaddR := none
  useraddR := none
  rmInstallShR := none
  versionR := none
  mkdirHomeR := none
  lnR := none
  mkdirCacheR := none
  chownCacheR := none
  chmodCacheR := none
  mkdirArtifactsR := none
  writeLock1R := none
  restoreErr := none
  restoreHit := some "42"
  restoreFiles := []
  writeLock2R := none
  rmLockR := none
  pkgInstallR := none
  mkdirSupR := none
  setsidR := none
  waitSecretR := none
  chgrpSecretR := none
  chmodSecretR := none
  waitStatusR := none
  svcLoadR := fun _ => none
  chownPkgsR := none
  findChmodR := none

def postOracleOk : PostOracle where
  writeLockR := none
  saveErr := none
  saveId := some "7"

theorem indexRun_no_save {c : Config} {o : Oracle} {fs : List String} :
    ∀ e ∈ (indexRun c o fs).events, e.isSave = false := by
  intro e he
  rcases indexRun_mem he with h | h | h
  · exact (prePhase_benign h).2.1
  · exact (restorePhase_no_save_install h).1
  · exact (afterRestore_restoreSaveFree h).2.1

/-! ## Claim theorems -/

/-- Claim C2: for every job, running the setup routine (and hence its restore
phase) twice performs the platform restore call at most once in total, and
running the teardown routine twice performs the platform save call at most
once in total, both through marker-file short-circuiting; this holds for any
configurations, any external-call outcomes and any starting file-system
state. -/
theorem C2_marker_idempotency :
    (∀ (c1 c2 : Config) (o1 o2 : Oracle) (fs : List String),
       countRestore (indexRun c1 o1 fs).events +
         countRestore (indexRun c2 o2 (indexRun c1 o1 fs).fs).events ≤ 1) ∧
    (∀ (o1 o2 : PostOracle) (fs : List String),
       countSave (postRun o1 fs).events +
         countSave (postRun o2 (postRun o1 fs).fs).events ≤ 1) := by
  constructor
  · intro c1 c2 o1 o2 fs
    by_cases h0 : RESTORE_LOCK_PATH ∈ fs
    · obtain ⟨hc1, hm1⟩ := indexRun_skip_restore (c := c1) (o := o1) h0
      obtain ⟨hc2, _⟩ := indexRun_skip_restore (c := c2) (o := o2) hm1
      omega
    · rcases Nat.eq_zero_or_pos (countRestore (indexRun c1 o1 fs).events) with hz | hp
      · have h2 := @indexRun_countRestore_le c2 o2 (indexRun c1 o1 fs).fs
        omega
      · have hm := indexRun_countRestore_marker (c := c1) (o := o1) hp
        obtain ⟨hc2, _⟩ := indexRun_skip_restore (c := c2) (o := o2) hm
        have h1 := @indexRun_countRestore_le c1 o1 fs
        omega
  · intro o1 o2 fs
    by_cases h0 : POST_CACHE_LOCK_PATH ∈ fs
    · obtain ⟨hc1, hm1⟩ := postRun_skip_save (o := o1) h0
      obtain ⟨hc2, _⟩ := postRun_skip_save (o := o2) hm1
      omega
    · rcases Nat.eq_zero_or_pos (countSave (postRun o1 fs).events) with hz | hp
      · have h2 := @postRun_countSave_le o2 (postRun o1 fs).fs
        omega
      · have hm := postRun_countSave_marker (o := o1) hp
        obtain ⟨hc2, _⟩ := postRun_skip_save (o := o2) hm
        have h1 := @postRun_countSave_le o1 fs
        omega

/-- Claim C9: the cache-key input only ever reaches the restore call of the
setup routine, whose key is the resolved cache key (the input, or the
workflow-derived default); the teardown routine's save call always uses the
fixed path `/hab/pkgs` and the fixed key `hab-pkgs` (its routine reads no
configuration at all), and the setup routine never performs a save call. -/
theorem C9_cache_key_scope :
    (∀ (o : PostOracle) (fs ps : List String) (k : String),
       Event.saveCall ps k ∈ (postRun o fs).events →
         ps = ["/hab/pkgs"] ∧ k = "hab-pkgs") ∧
    (∀ (c : Config) (o : Oracle) (fs ps : List String) (k : String),
       Event.restoreCall ps k ∈ (indexRun c o fs).events →
         ps = ["/hab/cache/artifacts"] ∧ k = resolvedCacheKey c) ∧
    (∀ (c : Config) (o : Oracle) (fs : List String),
       countSave (indexRun c o fs).events = 0) := by
  refine ⟨fun o fs ps k h => postRun_save_args h, fun c o fs ps k h => ?_,
    fun c o fs => countSave_eq_zero indexRun_no_save⟩
  rcases indexRun_mem h with h | h | h
  · have hb := (prePhase_benign h).1
    simp [Event.isRestore] at hb
  · exact restorePhase_restore_args h
  · have hb := (afterRestore_restoreSaveFree h).1
    simp [Event.isRestore] at hb

/-- Witness for C9 at a concrete run: the teardown's save call and the
setup's restore call occur and carry the stated paths and keys. -/
theorem C9_cache_key_scope_witness :
    (["/hab/pkgs"] = ["/hab/pkgs"] ∧ "hab-pkgs" = "hab-pkgs") ∧
    (["/hab/cache/artifacts"] = ["/hab/cache/artifacts"] ∧
       "hab-artifacts-cache:wf" = resolvedCacheKey cfgBase) :=
  ⟨C9_cache_key_scope.1 postOracleOk [] ["/hab/pkgs"] "hab-pkgs" (by decide),
   C9_cache_key_scope.2.1 cfgBase oracleOk [] ["/hab/cache/artifacts"]
     "hab-artifacts-cache:wf" (by decide)⟩

/-! ## Trim and tokenizer facts -/

theorem takeWhileAll {α : Type} {p : α → Bool} {l : List α} :
    ∀ x ∈ l.takeWhile p, p x = true :=
  List.all_eq_true.mp List.all_takeWhile

theorem dropWhile_eq_trim_append (cs : List Char) :
    cs.dropWhile isWsChar =
      trimCs cs ++ ((cs.dropWhile isWsChar).reverse.takeWhile isWsChar).reverse := by
  unfold trimCs
  rw [← List.reverse_append, List.takeWhile_append_dropWhile, List.reverse_reverse]

theorem trimCs_decomp (cs : List Char) :
    ∃ pre suf, (∀ c ∈ pre, isWsChar c = true) ∧ (∀ c ∈ suf, isWsChar c = true) ∧
      cs = pre ++ trimCs cs ++ suf := by
  refine ⟨cs.takeWhile isWsChar,
    ((cs.dropWhile isWsChar).reverse.takeWhile isWsChar).reverse,
    fun c hc => takeWhileAll c hc, ?_, ?_⟩
  · intro c hc
    rw [List.mem_reverse] at hc
    exact takeWhileAll c hc
  · conv_lhs => rw [← List.takeWhile_append_dropWhile isWsChar cs]
    rw [List.append_assoc, ← dropWhile_eq_trim_append]

theorem trimCs_head {cs : List Char} {c : Char} (h : (trimCs cs).head? = some c) :
    isWsChar c = false := by
  have hd := dropWhile_eq_trim_append cs
  have hne : trimCs cs ≠ [] := by
    intro hnil; rw [hnil] at h; simp at h
  have hh : (cs.dropWhile isWsChar).head? = some c := by
    rw [hd]
    rcases he : trimCs cs with _ | ⟨a, t⟩
    · exact absurd he hne
    · rw [he] at h
      simp at h
      simp [h]
  have hmatch := List.head?_dropWhile_not isWsChar cs
  rw [hh] at hmatch
  exact hmatch

theorem trimCs_getLast {cs : List Char} {c : Char}
    (h : (trimCs cs).getLast? = some c) : isWsChar c = false := by
  have h2 : ((cs.dropWhile isWsChar).reverse.dropWhile isWsChar).head? = some c := by
    have : trimCs cs = ((cs.dropWhile isWsChar).reverse.dropWhile isWsChar).reverse := rfl
    rw [this, List.getLast?_reverse] at h
    exact h
  have hmatch := List.head?_dropWhile_not isWsChar (cs.dropWhile isWsChar).reverse
  rw [h2] at hmatch
  exact hmatch

/-- The whitespace-skipping mode of the deps tokenizer yields a single empty
token on all-whitespace input. -/
theorem wsGo_skip_all_ws {l : List Char} (h : ∀ c ∈ l, isWsChar c = true) :
    wsGo true [] l = [[]] := by
  induction l with
  | nil => rfl
  | cons c cs ih =>
    have hc : isWsChar c = true := h c (by simp)
    simp only [wsGo, hc, if_true, ite_true]
    exact ih fun x hx => h x (by simp [hx])

theorem jsSplitWs_all_ws {l : List Char} (h : ∀ c ∈ l, isWsChar c = true) :
    jsSplitWs l = [[]] ∨ jsSplitWs l = [[], []] := by
  cases l with
  | nil => exact Or.inl rfl
  | cons c cs =>
    right
    have hc : isWsChar c = true := h c (by simp)
    simp only [jsSplitWs, wsGo, hc, if_true, ite_true, Bool.false_eq_true, if_false,
      ite_false]
    rw [wsGo_skip_all_ws fun x hx => h x (by simp [hx])]
    simp

theorem parseDeps_all_ws {s : String} (h : ∀ c ∈ s.data, isWsChar c = true) :
    parseDeps s = [] := by
  unfold parseDeps
  rcases jsSplitWs_all_ws h with h2 | h2 <;> rw [h2] <;> simp

theorem parseDeps_tokens_nonempty {s : String} : ∀ t ∈ parseDeps s, t ≠ "" := by
  intro t ht
  unfold parseDeps at ht
  simp only [List.mem_map, List.mem_filter] at ht
  obtain ⟨l, ⟨_, hl⟩, rfl⟩ := ht
  intro hcon
  have : l = [] := congrArg String.data hcon
  simp [this] at hl

theorem indexRun_no_pkg_of_empty {c : Config} {o : Oracle} {fs : List String}
    (hd : c.depsList = []) :
    ∀ (e : Event) (l : List String), e ∈ (indexRun c o fs).events → e ≠ .pkgInstall l := by
  intro e l he
  rcases indexRun_mem he with h | h | h
  · exact (prePhase_benign h).2.2 l
  · exact (restorePhase_no_save_install h).2.1 l
  · rcases afterRestore_mem h with ⟨hne, _⟩ | h | ⟨svcs, _, h⟩ | h
    · exact absurd hd hne
    · exact (supStartPhase_benign h).1.2.2 l
    · exact (loadServices_benign h).1.2.2 l
    · exact (finalPhase_benign h).1.2.2 l

/-- Claim C4: dependency parsing splits the input on runs of whitespace and
drops empty tokens (every parsed token is a nonempty string, and the
documented scenario parses as stated); an all-whitespace (or empty) input
parses to the empty list, in which case the setup routine performs no
package-manager install invocation. -/
theorem C4_deps_parsing (s s2 : String) (c : Config) (o : Oracle) (fs : List String)
    (hws : ∀ ch ∈ s.data, isWsChar ch = true) (hc : c.deps = s) :
    (∀ t ∈ parseDeps s2, t ≠ "") ∧
    parseDeps s = [] ∧
    parseDeps "core/git\ncore/bio-studio" = ["core/git", "core/bio-studio"] ∧
    parseDeps "core/git core/bio-studio" = ["core/git", "core/bio-studio"] ∧
    (∀ (e : Event) (l : List String), e ∈ (indexRun c o fs).events →
       e ≠ .pkgInstall l) := by
  have hempty : parseDeps s = [] := parseDeps_all_ws hws
  refine ⟨parseDeps_tokens_nonempty, hempty, by decide, by decide, ?_⟩
  exact indexRun_no_pkg_of_empty (by rw [Config.depsList, hc, hempty])

/-- Witness for C4 at the whitespace-only input `" \n\t "` and the sample
input `"a b"`. -/
theorem C4_deps_parsing_witness :
    (∀ ch ∈ (" \n\t " : String).data, isWsChar ch = true) ∧
    ((∀ t ∈ parseDeps "a b", t ≠ "") ∧
     parseDeps " \n\t " = [] ∧
     parseDeps "core/git\ncore/bio-studio" = ["core/git", "core/bio-studio"] ∧
     parseDeps "core/git core/bio-studio" = ["core/git", "core/bio-studio"] ∧
     (∀ (e : Event) (l : List String),
        e ∈ (indexRun { cfgBase with deps := " \n\t " } oracleOk []).events →
          e ≠ .pkgInstall l)) :=
  ⟨by decide,
   C4_deps_parsing " \n\t " "a b" { cfgBase with deps := " \n\t " } oracleOk []
     (by decide) rfl⟩

/-- Claim C7: when the platform cache-save operation of the teardown routine
fails, the failure is reported through the save-phase message, exactly one
save call was attempted (no retry), the save marker remains on the file
system, and the routine halts. -/
theorem C7_save_failure (o : PostOracle) (fs : List String) (m : String)
    (h1 : POST_CACHE_LOCK_PATH ∉ fs) (h2 : o.writeLockR = none)
    (h3 : o.saveErr = some m) :
    Event.setFailedMsg .savePackageCache m ∈ (postRun o fs).events ∧
    countSave (postRun o fs).events = 1 ∧
    POST_CACHE_LOCK_PATH ∈ (postRun o fs).fs ∧
    (postRun o fs).outcome = .halted := by
  simp [postRun, h1, h2, h3, countSave, Event.isSave, List.countP_cons,
    List.countP_append]

def postOracleSaveFail : PostOracle where
  writeLockR := none
  saveErr := some "disk full"
  saveId := none

/-- Witness for C7: a concrete failing save. -/
theorem C7_save_failure_witness :
    Event.setFailedMsg .savePackageCache "disk full" ∈
      (postRun postOracleSaveFail []).events ∧
    countSave (postRun postOracleSaveFail []).events = 1 ∧
    POST_CACHE_LOCK_PATH ∈ (postRun postOracleSaveFail []).fs ∧
    (postRun postOracleSaveFail []).outcome = .halted :=
  C7_save_failure postOracleSaveFail [] "disk full" (by decide) rfl rfl

/-- Claim C8: when the binary lookup resolves and finds the package manager,
the setup routine performs none of the installation sub-phases: no event of
the download/move group, the user-creation group or the symlink group occurs,
none of their commands (download, extraction, move, chmod, group and user
creation) runs, and the version verification command does not run. -/
theorem C8_present_skips_install (c : Config) (o : Oracle) (fs : List String)
    (h1 : o.whichErr = none) (h2 : o.whichFound = true) :
    ∀ e ∈ (indexRun c o fs).events, isInstallEvt e = false := by
  intro e he
  rcases indexRun_mem he with h | h | h
  · rcases prePhase_found_mem h1 h2 h with h | h | h | h
    · simp only [exportEvents, List.mem_cons, List.not_mem_nil, or_false] at h
      rcases h with rfl | rfl | rfl <;> rfl
    · subst h; rfl
    · subst h; rfl
    · exact (ownershipPhase_benign h).2
  · exact (restorePhase_no_save_install h).2.2
  · exact (afterRestore_restoreSaveFree h).2.2

/-- Witness for C8: in the concrete all-successful run with the binary
found, the first trace event (picked as a sample) is not an installation
event. -/
theorem C8_present_skips_install_witness :
    isInstallEvt (Event.exportVar "HAB_NONINTERACTIVE" "true") = false :=
  C8_present_skips_install cfgBase oracleOk [] rfl rfl
    (Event.exportVar "HAB_NONINTERACTIVE" "true") (by decide)

/-- Claim C10: whenever the command/output helper returns a string, the
command's awaited `exec` resolved (a non-zero exit rejects instead, and then
no string is returned), and the returned string is the concatenation of all
standard-output chunks with surrounding whitespace trimmed: the concatenation
splits as whitespace, then the result, then whitespace, and the result
neither starts nor ends with a whitespace character. -/
theorem C10_execOutput_contract (chunks : List String) (exitOk : Bool) (s : String)
    (h : execOutput chunks exitOk = some s) :
    exitOk = true ∧
    s = jsTrim (chunks.foldl (fun a b => a ++ b) "") ∧
    (∃ pre suf, (∀ ch ∈ pre, isWsChar ch = true) ∧ (∀ ch ∈ suf, isWsChar ch = true) ∧
       (chunks.foldl (fun a b => a ++ b) "").data = pre ++ s.data ++ suf) ∧
    (∀ ch, s.data.head? = some ch → isWsChar ch = false) ∧
    (∀ ch, s.data.getLast? = some ch → isWsChar ch = false) ∧
    execOutput chunks false = none := by
  cases exitOk with
  | false => simp [execOutput] at h
  | true =>
    simp only [execOutput, if_true, ite_true, Option.some.injEq] at h
    subst h
    refine ⟨rfl, rfl, ?_, ?_, ?_, rfl⟩
    · obtain ⟨pre, suf, hpre, hsuf, hsplit⟩ :=
        trimCs_decomp (chunks.foldl (fun a b => a ++ b) "").data
      exact ⟨pre, suf, hpre, hsuf, by simpa [jsTrim] using hsplit⟩
    · intro ch hch
      exact trimCs_head (by simpa [jsTrim] using hch)
    · intro ch hch
      exact trimCs_getLast (by simpa [jsTrim] using hch)

/-- Witness for C10 at a concrete command output. -/
theorem C10_execOutput_contract_witness :
    true = true ∧
    "ab" = jsTrim ((["  a", "b "] : List String).foldl (fun a b => a ++ b) "") ∧
    (∃ pre suf, (∀ ch ∈ pre, isWsChar ch = true) ∧ (∀ ch ∈ suf, isWsChar ch = true) ∧
       ((["  a", "b "] : List String).foldl (fun a b => a ++ b) "").data =
         pre ++ ("ab" : String).data ++ suf) ∧
    (∀ ch, ("ab" : String).data.head? = some ch → isWsChar ch = false) ∧
    (∀ ch, ("ab" : String).data.getLast? = some ch → isWsChar ch = false) ∧
    execOutput ["  a", "b "] false = none :=
  C10_execOutput_contract ["  a", "b "] true "ab" (by decide)

/-! ## Temporal ordering of marker writes and cache operations -/

/-- `x` occurs at a strictly earlier position than some occurrence of `y`. -/
@[reducible]
def eventBefore (L : List Event) (x y : Event) : Prop :=
  ∃ i j : Nat, i < j ∧ L[i]? = some x ∧ L[j]? = some y

theorem eventBefore_append_left {L M : List Event} {x y : Event}
    (h : eventBefore L x y) : eventBefore (M ++ L) x y := by
  obtain ⟨i, j, hij, hx, hy⟩ := h
  refine ⟨M.length + i, M.length + j, by omega, ?_, ?_⟩
  · rw [List.getElem?_append_right (by omega)]
    simpa using hx
  · rw [List.getElem?_append_right (by omega)]
    simpa using hy

theorem eventBefore_append_right {L M : List Event} {x y : Event}
    (h : eventBefore L x y) : eventBefore (L ++ M) x y := by
  obtain ⟨i, j, hij, hx, hy⟩ := h
  have hj : j < L.length := by
    by_contra hc
    rw [List.getElem?_eq_none (by omega)] at hy
    exact Option.noConfusion hy
  refine ⟨i, j, hij, ?_, ?_⟩ <;> rw [List.getElem?_append_left (by omega)]
  · exact hx
  · exact hy

theorem restorePhase_order {c : Config} {o : Oracle} {fs ps : List String} {k : String}
    (h : Event.restoreCall ps k ∈ (restorePhase c o fs).events) :
    eventBefore (restorePhase c o fs).events (.writeFile RESTORE_LOCK_PATH)
      (.restoreCall ps k) ∧
    (o.restoreErr = none →
      eventBefore (restorePhase c o fs).events (.restoreCall ps k)
        (.writeFile RESTORE_LOCK_PATH)) := by
  obtain ⟨rfl, rfl⟩ := restorePhase_restore_args h
  by_cases h1 : RESTORE_LOCK_PATH ∈ fs
  · rw [restorePhase_skip h1] at h; simp at h
  · by_cases h7 :
      CACHE_LOCK_PATH ∈ RESTORE_LOCK_PATH :: (o.restoreFiles ++ RESTORE_LOCK_PATH :: fs) <;>
    rcases h2 : o.mkdirArtifactsR with _ | m2 <;>
    rcases h3 : o.writeLock1R with _ | m3 <;>
    rcases h4 : o.restoreErr with _ | m4 <;>
    rcases h5 : o.writeLock2R with _ | m5 <;>
    rcases h6 : o.rmLockR with _ | m6 <;>
      simp only [restorePhase, h1, h2, h3, h4, h5, h6, h7, if_false, ite_false, if_true,
        ite_true, List.cons_append, List.nil_append, List.append_nil, List.mem_append,
        List.mem_cons, List.mem_singleton, List.not_mem_nil, or_false, false_or,
        eq_self_iff_true, true_implies, false_implies, Option.some.injEq,
        reduceCtorEq] at h ⊢ <;>
      first
      | exact ⟨⟨4, 6, by omega, rfl, rfl⟩, ⟨6, 9, by omega, rfl, rfl⟩⟩
      | exact ⟨4, 6, by omega, rfl, rfl⟩
      | exact ⟨⟨4, 6, by omega, rfl, rfl⟩, trivial⟩

theorem postRun_order {o : PostOracle} {fs ps : List String} {k : String}
    (h : Event.saveCall ps k ∈ (postRun o fs).events) :
    eventBefore (postRun o fs).events (.writeFile POST_CACHE_LOCK_PATH)
      (.saveCall ps k) := by
  obtain ⟨rfl, rfl⟩ := postRun_save_args h
  by_cases h1 : POST_CACHE_LOCK_PATH ∈ fs
  · rw [postRun_skip h1] at h; simp at h
  · rcases h2 : o.writeLockR with _ | m2 <;>
    rcases h3 : o.saveErr with _ | m3 <;>
      simp only [postRun, h1, h2, h3, if_false, ite_false, List.cons_append,
        List.nil_append, List.mem_append, List.mem_cons, List.mem_singleton,
        List.not_mem_nil, or_false, false_or, reduceCtorEq, Option.some.injEq] at h ⊢ <;>
      exact ⟨1, 2, by omega, rfl, rfl⟩

/-- Claim C6: whenever a routine performs its platform cache operation, the
corresponding idempotency marker was written at a strictly earlier point of
the trace: the restore marker is written before the cache-restore call (and
written again after the call when it resolves), and the save marker is
written before the cache-save call. -/
theorem C6_marker_write_order :
    (∀ (c : Config) (o : Oracle) (fs ps : List String) (k : String),
       Event.restoreCall ps k ∈ (indexRun c o fs).events →
         eventBefore (indexRun c o fs).events (.writeFile RESTORE_LOCK_PATH)
           (.restoreCall ps k) ∧
         (o.restoreErr = none →
            eventBefore (indexRun c o fs).events (.restoreCall ps k)
              (.writeFile RESTORE_LOCK_PATH))) ∧
    (∀ (o : PostOracle) (fs ps : List String) (k : String),
       Event.saveCall ps k ∈ (postRun o fs).events →
         eventBefore (postRun o fs).events (.writeFile POST_CACHE_LOCK_PATH)
           (.saveCall ps k)) := by
  constructor
  · intro c o fs ps k h
    rcases hp : (prePhase c o).2 with m | _ | _
    · rw [indexRun_crash hp] at h ⊢
      have hb := (prePhase_benign h).1
      simp [Event.isRestore] at hb
    · rw [indexRun_fail hp] at h ⊢
      have hb := (prePhase_benign h).1
      simp [Event.isRestore] at hb
    · by_cases hr : (restorePhase c o fs).ok
      · rw [indexRun_restoreOk hp hr] at h ⊢
        have hres : Event.restoreCall ps k ∈ (restorePhase c o fs).events := by
          rcases List.mem_append.mp h with h | h
          · rcases List.mem_append.mp h with h | h
            · have hb := (prePhase_benign h).1
              simp [Event.isRestore] at hb
            · exact h
          · have hb := (afterRestore_restoreSaveFree h).1
            simp [Event.isRestore] at hb
        obtain ⟨ho1, ho2⟩ := restorePhase_order hres
        exact ⟨eventBefore_append_right (eventBefore_append_left ho1),
               fun hn => eventBefore_append_right (eventBefore_append_left (ho2 hn))⟩
      · rw [indexRun_restoreFail hp (by simpa using hr)] at h ⊢
        have hres : Event.restoreCall ps k ∈ (restorePhase c o fs).events := by
          rcases List.mem_append.mp h with h | h
          · have hb := (prePhase_benign h).1
            simp [Event.isRestore] at hb
          · exact h
        obtain ⟨ho1, ho2⟩ := restorePhase_order hres
        exact ⟨eventBefore_append_left ho1,
               fun hn => eventBefore_append_left (ho2 hn)⟩
  · intro o fs ps k h
    exact postRun_order h

/-- Witness for C6: the concrete all-successful runs. -/
theorem C6_marker_write_order_witness :
    (eventBefore (indexRun cfgBase oracleOk []).events
       (.writeFile RESTORE_LOCK_PATH)
       (.restoreCall ["/hab/cache/artifacts"] "hab-artifacts-cache:wf") ∧
     eventBefore (indexRun cfgBase oracleOk []).events
       (.restoreCall ["/hab/cache/artifacts"] "hab-artifacts-cache:wf")
       (.writeFile RESTORE_LOCK_PATH)) ∧
    eventBefore (postRun postOracleOk []).events (.writeFile POST_CACHE_LOCK_PATH)
      (.saveCall ["/hab/pkgs"] "hab-pkgs") :=
  ⟨⟨(C6_marker_write_order.1 cfgBase oracleOk [] ["/hab/cache/artifacts"]
       "hab-artifacts-cache:wf" (by decide)).1,
    (C6_marker_write_order.1 cfgBase oracleOk [] ["/hab/cache/artifacts"]
       "hab-artifacts-cache:wf" (by decide)).2 rfl⟩,
   C6_marker_write_order.2 postOracleOk [] ["/hab/pkgs"] "hab-pkgs" (by decide)⟩

/-! ## Failure reporting shape -/

/-- The trace ends with a tagged failure report, followed at most by the
`finally` group-closing event: nothing of any later phase runs after a
reported failure. -/
def failTail (es : List Event) : Prop :=
  ∃ l t m r, es = l ++ Event.setFailedMsg t m :: r ∧ (r = [] ∨ r = [Event.endGroup])

theorem failTail_append_left {es : List Event} (pre : List Event) (h : failTail es) :
    failTail (pre ++ es) := by
  obtain ⟨l, t, m, r, he, hr⟩ := h
  exact ⟨pre ++ l, t, m, r, by rw [he, List.append_assoc], hr⟩

theorem failTail_snoc (l : List Event) (t : FailTag) (m : String) :
    failTail (l ++ [Event.setFailedMsg t m, Event.endGroup]) :=
  ⟨l, t, m, [Event.endGroup], rfl, Or.inr rfl⟩

theorem tryPhase_failTail {g : GroupTag} {t : FailTag}
    {steps : List (Event × Option String)} (h : (tryPhase g t steps).ok = false) :
    failTail (tryPhase g t steps).events := by
  unfold tryPhase at h ⊢
  rcases h2 : (runSteps steps).2 with _ | m
  · rw [h2] at h; simp at h
  · exact failTail_snoc (Event.startGroup g :: (runSteps steps).1) t m

theorem verifyPhase_failTail {o : Oracle} (h : (verifyPhase o).ok = false) :
    failTail (verifyPhase o).events := by
  unfold verifyPhase at h ⊢
  rcases h2 : o.versionR with _ | m
  · rw [h2] at h; simp at h
  · exact ⟨[.execArgs "bio --version" []], .verifyBio, m, [], rfl, Or.inl rfl⟩

theorem installBlock_failTail {c : Config} {o : Oracle}
    (h : (installBlock c o).2 = false) : failTail (installBlock c o).1 := by
  cases h1 : (installPhase o).ok <;>
  cases hu : (userPhase o).ok <;>
  cases hv : (verifyPhase o).ok <;>
  cases hl : (linkPhase c o).ok <;>
    simp only [installBlock, h1, hu, hv, hl, Bool.false_eq_true, if_true, if_false,
      ite_true, ite_false] at h ⊢ <;>
    first
    | simp at h
    | exact tryPhase_failTail h1
    | exact failTail_append_left _ (tryPhase_failTail hu)
    | exact failTail_append_left _ (verifyPhase_failTail hv)
    | exact failTail_append_left _ (tryPhase_failTail hl)

theorem prePhase_failTail {c : Config} {o : Oracle} (h : (prePhase c o).2 = .fail) :
    failTail (prePhase c o).1 := by
  rcases h1 : o.exportNoninteractiveR with _ | m1 <;>
  rcases h2 : o.exportBldrUrlR with _ | m2 <;>
  rcases h3 : o.exportStudioTypeR with _ | m3 <;>
  rcases h4 : o.whichErr with _ | m4 <;>
  cases h5 : o.whichFound <;>
  cases h6 : (installBlock c o).2 <;>
  cases h7 : (ownershipPhase o).ok <;>
    simp only [prePhase, h1, h2, h3, h4, h5, h6, h7, Bool.false_eq_true, if_true,
      if_false, ite_true, ite_false, reduceCtorEq] at h ⊢ <;>
    first
    | exact failTail_append_left _ (tryPhase_failTail h7)
    | exact failTail_append_left _ (installBlock_failTail h6)

theorem restorePhase_failTail {c : Config} {o : Oracle} {fs : List String}
    (h : (restorePhase c o fs).ok = false) : failTail (restorePhase c o fs).events := by
  by_cases h1 : RESTORE_LOCK_PATH ∈ fs
  · rw [restorePhase_skip h1] at h; simp at h
  · by_cases h7 :
      CACHE_LOCK_PATH ∈ RESTORE_LOCK_PATH :: (o.restoreFiles ++ RESTORE_LOCK_PATH :: fs) <;>
    rcases h2 : o.mkdirArtifactsR with _ | m2 <;>
    rcases h3 : o.writeLock1R with _ | m3 <;>
    rcases h4 : o.restoreErr with _ | m4 <;>
    rcases h5 : o.writeLock2R with _ | m5 <;>
    rcases h6 : o.rmLockR with _ | m6 <;>
      simp only [restorePhase, h1, h2, h3, h4, h5, h6, h7, if_false, ite_false, if_true,
        ite_true] at h ⊢ <;>
      first
      | simp at h
      | exact failTail_snoc _ _ _

theorem loadServices_failTail {o : Oracle} :
    ∀ {svcs : List String} {i : Nat}, (loadServices o svcs i).2 = false →
      failTail (loadServices o svcs i).1 := by
  intro svcs
  induction svcs with
  | nil => intro i h; simp [loadServices] at h
  | cons svc rest ih =>
    intro i h
    rcases h2 : o.svcLoadR i with _ | m <;> simp only [loadServices, h2] at h ⊢
    · exact failTail_append_left
        [.startGroup (.loadingService svc), .svcLoad svc, .endGroup] (ih h)
    · exact ⟨[.startGroup (.loadingService svc), .svcLoad svc], .loadService, m,
        [.endGroup], rfl, Or.inr rfl⟩

theorem supervisorBlock_failTail {c : Config} {o : Oracle}
    (h : (supervisorBlock c o).2 = false) : failTail (supervisorBlock c o).1 := by
  rcases hs : c.supervisorVal with _ | _ | svcs <;>
  cases hok : (supStartPhase o).ok <;>
    simp only [supervisorBlock, hs, hok, Bool.false_eq_true, if_true, if_false,
      ite_true, ite_false] at h ⊢ <;>
    first
    | simp at h
    | exact tryPhase_failTail hok
    | exact failTail_append_left _ (loadServices_failTail h)

theorem afterRestore_failTail {c : Config} {o : Oracle}
    (h : (afterRestore c o).2 = false) : failTail (afterRestore c o).1 := by
  cases hd : c.depsList.isEmpty <;>
  cases hdo : (depsPhase c o).ok <;>
  cases hs : (supervisorBlock c o).2 <;>
  cases hf : (finalPhase o).ok <;>
    simp only [afterRestore, hd, hdo, hs, hf, Bool.false_eq_true, if_true, if_false,
      ite_true, ite_false, eq_self_iff_true, List.nil_append] at h ⊢ <;>
    first
    | simp at h
    | exact tryPhase_failTail hdo
    | exact supervisorBlock_failTail hs
    | exact failTail_append_left _ (supervisorBlock_failTail hs)
    | exact failTail_append_left _ (tryPhase_failTail hf)

theorem indexRun_halted_failTail {c : Config} {o : Oracle} {fs : List String}
    (h : (indexRun c o fs).outcome = .halted) : failTail (indexRun c o fs).events := by
  rcases hp : (prePhase c o).2 with m | _ | _
  · rw [indexRun_crash hp] at h; simp at h
  · rw [indexRun_fail hp] at h ⊢
    exact prePhase_failTail hp
  · by_cases hr : (restorePhase c o fs).ok
    · rw [indexRun_restoreOk hp hr] at h ⊢
      by_cases ha : (afterRestore c o).2
      · simp only [ha, if_true, ite_true] at h
        simp at h
      · simp only
        exact failTail_append_left _ (afterRestore_failTail (by simpa using ha))
    · rw [indexRun_restoreFail hp (by simpa using hr)] at h ⊢
      exact failTail_append_left _ (restorePhase_failTail (by simpa using hr))

theorem prePhase_crash_shape {c : Config} {o : Oracle} {m : String}
    (h : (prePhase c o).2 = .crash m) :
    ∀ e ∈ (prePhase c o).1, (∃ n v, e = .exportVar n v) ∨ e = .whichBio := by
  rcases h1 : o.exportNoninteractiveR with _ | m1 <;>
  rcases h2 : o.exportBldrUrlR with _ | m2 <;>
  rcases h3 : o.exportStudioTypeR with _ | m3 <;>
  rcases h4 : o.whichErr with _ | m4 <;>
  cases h5 : o.whichFound <;>
  cases h6 : (installBlock c o).2 <;>
  cases h7 : (ownershipPhase o).ok <;>
    simp only [prePhase, h1, h2, h3, h4, h5, h6, h7, Bool.false_eq_true, if_true,
      if_false, ite_true, ite_false, reduceCtorEq, exportEvents] at h ⊢ <;>
    intro e he <;>
    simp only [List.mem_cons, List.mem_append, List.mem_singleton,
      List.not_mem_nil, or_false] at he <;>
    (repeat' rcases he with he | he) <;> (try subst he) <;>
    first
    | exact Or.inl ⟨_, _, rfl⟩
    | exact Or.inr rfl

def oracleWhichCrash : Oracle := { oracleOk with whichErr := some "boom" }

def oracleWgetFail : Oracle :=
  { oracleOk with whichFound := false, wgetR := some "dl error" }

/-- Claim C3 counterexample: a failure of the binary presence check
(`io.which` rejecting) is not caught by anything — the routine aborts with
no `core.setFailed` report at all, refuting the claim that every phase
(including the binary presence check) is wrapped by phase-specific error
reporting. -/
theorem C3_unwrapped_failure_counterexample :
    (indexRun cfgBase oracleWhichCrash []).outcome = .crashed "boom" ∧
    (∀ e ∈ (indexRun cfgBase oracleWhichCrash []).events, e.isFailReport = false) := by
  decide

/-- Claim C3 (amended): every phase after the environment export and the
binary presence check is wrapped so that its failure is reported through a
phase-tagged `core.setFailed` message after which only the group-closing
event may follow (so no later phase runs); a failure of the unwrapped
environment-export calls or of the binary lookup still halts the routine —
the trace then contains nothing but export events and the lookup event, in
particular no restore call — but produces no failure report (the
module-level `try`/`catch` never observes the async rejection). -/
theorem C3_error_policy_amended (c : Config) (o : Oracle) (fs : List String) :
    ((indexRun c o fs).outcome = .halted → failTail (indexRun c o fs).events) ∧
    (∀ m, (indexRun c o fs).outcome = .crashed m →
       (∀ e ∈ (indexRun c o fs).events,
          ((∃ n v, e = .exportVar n v) ∨ e = .whichBio) ∧ e.isFailReport = false) ∧
       countRestore (indexRun c o fs).events = 0) := by
  refine ⟨indexRun_halted_failTail, fun m hm => ?_⟩
  rcases hp : (prePhase c o).2 with m2 | _ | _
  · rw [indexRun_crash hp] at hm ⊢
    have hshape := prePhase_crash_shape hp
    refine ⟨fun e he => ⟨hshape e he, ?_⟩, countRestore_eq_zero fun e he => ?_⟩
    · rcases hshape e he with ⟨n, v, rfl⟩ | rfl <;> rfl
    · rcases hshape e he with ⟨n, v, rfl⟩ | rfl <;> rfl
  · rw [indexRun_fail hp] at hm; simp at hm
  · by_cases hr : (restorePhase c o fs).ok
    · rw [indexRun_restoreOk hp hr] at hm
      by_cases ha : (afterRestore c o).2 <;> simp [ha] at hm
    · rw [indexRun_restoreFail hp (by simpa using hr)] at hm
      simp at hm

/-- Witness for C3 (amended): a concrete wrapped failure (download failing)
is reported and ends the trace; a concrete unwrapped failure (`io.which`
rejecting) crashes with no report and no restore. -/
theorem C3_error_policy_amended_witness :
    ((indexRun cfgBase oracleWgetFail []).outcome = .halted ∧
     failTail (indexRun cfgBase oracleWgetFail []).events) ∧
    ((indexRun cfgBase oracleWhichCrash []).outcome = .crashed "boom" ∧
     (∀ e ∈ (indexRun cfgBase oracleWhichCrash []).events,
        ((∃ n v, e = .exportVar n v) ∨ e = .whichBio) ∧ e.isFailReport = false) ∧
     countRestore (indexRun cfgBase oracleWhichCrash []).events = 0) :=
  ⟨⟨by decide, (C3_error_policy_amended cfgBase oracleWgetFail []).1 (by decide)⟩,
   ⟨by decide, (C3_error_policy_amended cfgBase oracleWhichCrash []).2 "boom" (by decide)⟩⟩

/-! ## Supervisor parsing refinement (claim C5)

The code splits the trimmed supervisor input with the regex `/\s*\n\s*/`
(`jsSplitNl`) and drops empty entries.  The specification describes the same
list as: trim surrounding whitespace, split on newlines, drop empty entries.
We define the specification-side parse (`specSupervisorServices`, built on a
plain newline split) and prove the two agree on every input. -/

def noLeadWs (l : List Char) : Prop := ∀ x, l.head? = some x → isWsChar x = false

def noTrailWs (l : List Char) : Prop := ∀ x, l.getLast? = some x → isWsChar x = false

/-- Splitting a character list at every newline, keeping empty entries. -/
def splitOnNl : List Char → List (List Char)
  | [] => [[]]
  | c :: cs =>
    if c = '\n' then [] :: splitOnNl cs
    else (splitOnNl cs).modifyHead (fun t => c :: t)

/-- The supervisor service list as the specification words it: trim the
surrounding whitespace, split on newlines, and drop empty entries (each
entry keeps its inner whitespace; the whitespace around an entry sits next
to a newline or at the ends of the input and is trimmed away). -/
def specSupervisorServices (s : String) : List String :=
  (((splitOnNl (trimCs s.data)).map trimCs).filter (fun t => t ≠ [])).map String.mk

/-- The nonempty trimmed entries of the newline split. -/
def tokensNl (cs : List Char) : List (List Char) :=
  ((splitOnNl cs).map trimCs).filter (fun t => t ≠ [])

theorem splitOnNl_ne_nil (cs : List Char) : splitOnNl cs ≠ [] := by
  induction cs with
  | nil => simp [splitOnNl]
  | cons c cs ih =>
    by_cases h : c = '\n'
    · simp [splitOnNl, h]
    · simp only [splitOnNl, h, if_false, ite_false]
      cases h2 : splitOnNl cs with
      | nil => exact absurd h2 ih
      | cons t ts => simp [List.modifyHead]

theorem nlGo_skip (l : List Char) :
    nlGo true [] l = nlGo false [] (l.dropWhile isWsChar) := by
  induction l with
  | nil => rfl
  | cons c cs ih =>
    by_cases h : isWsChar c
    · simp only [nlGo, h, if_true, ite_true, List.dropWhile_cons_of_pos h]
      exact ih
    · have h2 : (isWsChar c && (c = '\n' || (cs.takeWhile isWsChar).contains '\n')) =
          false := by simp [h]
      simp only [nlGo, h, h2, if_false, ite_false, Bool.false_eq_true,
        List.dropWhile_cons_of_neg h]
      simp

theorem splitOnNl_no_nl {l : List Char} (h : '\n' ∉ l) : splitOnNl l = [l] := by
  induction l with
  | nil => rfl
  | cons c cs ih =>
    have hc : ¬(c = '\n') := fun he => h (by simp [he])
    have hcs : '\n' ∉ cs := fun hm => h (by simp [hm])
    simp [splitOnNl, hc, ih hcs, List.modifyHead]

theorem splitOnNl_append_nl {a x : List Char} (h : '\n' ∉ a) :
    splitOnNl (a ++ '\n' :: x) = a :: splitOnNl x := by
  induction a with
  | nil => simp [splitOnNl]
  | cons c cs ih =>
    have hc : ¬(c = '\n') := fun he => h (by simp [he])
    have hcs : '\n' ∉ cs := fun hm => h (by simp [hm])
    simp [splitOnNl, hc, ih hcs, List.modifyHead]

theorem trimCs_cons_ws {c : Char} {l : List Char} (h : isWsChar c = true) :
    trimCs (c :: l) = trimCs l := by
  unfold trimCs
  rw [List.dropWhile_cons_of_pos h]

theorem trimCs_eq_self {l : List Char} (h1 : noLeadWs l) (h2 : noTrailWs l) :
    trimCs l = l := by
  have hd : l.dropWhile isWsChar = l := by
    cases l with
    | nil => rfl
    | cons c cs =>
      have hx := h1 c rfl
      exact List.dropWhile_cons_of_neg (by simp [hx])
  unfold trimCs
  rw [hd]
  have hr : l.reverse.dropWhile isWsChar = l.reverse := by
    cases hrev : l.reverse with
    | nil => rfl
    | cons c cs =>
      have hlast : l.getLast? = some c := by
        rw [← List.head?_reverse, hrev]; rfl
      have hx := h2 c hlast
      exact List.dropWhile_cons_of_neg (by simp [hx])
  rw [hr, List.reverse_reverse]

theorem trimCs_append_ws {l w : List Char} (h1 : noLeadWs l) (h2 : noTrailWs l)
    (hw : ∀ c ∈ w, isWsChar c = true) : trimCs (l ++ w) = l := by
  cases l with
  | nil =>
    simp only [List.nil_append]
    unfold trimCs
    rw [List.dropWhile_eq_nil_iff.mpr hw]
    rfl
  | cons a l' =>
    unfold trimCs
    have hd : ((a :: l') ++ w).dropWhile isWsChar = (a :: l') ++ w := by
      have hx := h1 a rfl
      exact List.dropWhile_cons_of_neg (by simp [hx])
    rw [hd, List.reverse_append,
      List.dropWhile_append_of_pos (fun x hx => hw x (List.mem_reverse.mp hx))]
    have hrev : ((a :: l').reverse).dropWhile isWsChar = (a :: l').reverse := by
      cases hr : (a :: l').reverse with
      | nil => simp at hr
      | cons c cs =>
        have hlast : (a :: l').getLast? = some c := by
          rw [← List.head?_reverse, hr]; rfl
        have hx := h2 c hlast
        exact List.dropWhile_cons_of_neg (by simp [hx])
    rw [hrev, List.reverse_reverse]

theorem tokensNl_wsRun {r post : List Char} (hr : ∀ c ∈ r, isWsChar c = true) :
    tokensNl (r ++ post) = tokensNl post := by
  induction r with
  | nil => rfl
  | cons c r' ih =>
    have hc : isWsChar c = true := hr c (by simp)
    have hr' : ∀ x ∈ r', isWsChar x = true := fun x hx => hr x (by simp [hx])
    by_cases hn : c = '\n'
    · unfold tokensNl
      simp only [List.cons_append, splitOnNl, hn, if_true, ite_true, List.map_cons]
      rw [show trimCs [] = [] from rfl]
      simpa [tokensNl] using ih hr'
    · unfold tokensNl
      simp only [List.cons_append, splitOnNl, hn, if_false, ite_false]
      cases hS : splitOnNl (r' ++ post) with
      | nil => exact absurd hS (splitOnNl_ne_nil _)
      | cons t ts =>
        have step : (((t :: ts).modifyHead (fun l => c :: l)).map trimCs).filter
            (fun t => t ≠ []) = ((t :: ts).map trimCs).filter (fun t => t ≠ []) := by
          simp [List.modifyHead, trimCs_cons_ws hc]
        rw [step]
        have := ih hr'
        unfold tokensNl at this
        rw [hS] at this
        exact this

theorem tokensNl_sep {pre run post : List Char} (h1 : noLeadWs pre) (h2 : noTrailWs pre)
    (h3 : '\n' ∉ pre) (hrun : ∀ c ∈ run, isWsChar c = true) (hn : '\n' ∈ run) :
    tokensNl (pre ++ run ++ post) =
      (if pre = [] then [] else [pre]) ++ tokensNl post := by
  obtain ⟨d, ds, hds⟩ : ∃ d ds, run.dropWhile (fun x => x ≠ '\n') = d :: ds := by
    cases hc : run.dropWhile (fun x => x ≠ '\n') with
    | nil =>
      have := List.dropWhile_eq_nil_iff.mp hc '\n' hn
      simp at this
    | cons d ds => exact ⟨d, ds, rfl⟩
  have hd_eq : d = '\n' := by
    have hh := List.head?_dropWhile_not (fun x => x ≠ '\n') run
    rw [hds] at hh
    simpa using hh
  subst hd_eq
  have hrun_eq : run = run.takeWhile (fun x => x ≠ '\n') ++ '\n' :: ds := by
    conv_lhs => rw [← List.takeWhile_append_dropWhile (fun x => x ≠ '\n') run]
    rw [hds]
  have hw1ws : ∀ c ∈ run.takeWhile (fun x => x ≠ '\n'), isWsChar c = true := by
    intro c hc
    apply hrun c
    rw [← List.takeWhile_append_dropWhile (fun x => x ≠ '\n') run]
    exact List.mem_append_left _ hc
  have hw1nn : '\n' ∉ run.takeWhile (fun x => x ≠ '\n') := by
    intro hm
    have := takeWhileAll _ hm
    simp at this
  have hdsws : ∀ c ∈ ds, isWsChar c = true := by
    intro c hc
    exact hrun c (by rw [hrun_eq]; simp [hc])
  rw [hrun_eq]
  have hassoc : pre ++ (run.takeWhile (fun x => x ≠ '\n') ++ '\n' :: ds) ++ post =
      (pre ++ run.takeWhile (fun x => x ≠ '\n')) ++ '\n' :: (ds ++ post) := by
    simp [List.append_assoc]
  rw [hassoc]
  unfold tokensNl
  rw [splitOnNl_append_nl (by
    intro hm
    rcases List.mem_append.mp hm with hm | hm
    · exact h3 hm
    · exact hw1nn hm)]
  rw [List.map_cons, List.filter_cons, trimCs_append_ws h1 h2 hw1ws]
  have hC := @tokensNl_wsRun ds post hdsws
  unfold tokensNl at hC
  rw [hC]
  by_cases hp : pre = []
  · simp [hp]
  · simp [hp]

theorem nlGo_tokens_nil {acc : List Char} (hnl : '\n' ∉ acc)
    (hlead : noLeadWs acc.reverse) (htrail : noTrailWs acc.reverse) :
    (nlGo false acc []).filter (fun t => t ≠ []) = tokensNl acc.reverse := by
  show ([acc.reverse]).filter (fun t => t ≠ []) = tokensNl acc.reverse
  unfold tokensNl
  rw [splitOnNl_no_nl (by simpa using hnl)]
  simp only [List.map_cons, List.map_nil]
  rw [trimCs_eq_self hlead htrail]

theorem nlGo_tokens : ∀ (n : Nat) (cs acc : List Char), cs.length ≤ n →
    '\n' ∉ acc →
    noLeadWs acc.reverse →
    (∀ x, acc.head? = some x → isWsChar x = true → '\n' ∉ cs.takeWhile isWsChar) →
    noTrailWs (acc.reverse ++ cs) →
    (acc = [] → noLeadWs cs) →
    (nlGo false acc cs).filter (fun t => t ≠ []) = tokensNl (acc.reverse ++ cs) := by
  intro n
  induction n with
  | zero =>
    intro cs acc hlen hnl hlead _ htrail _
    have hcs : cs = [] := List.length_eq_zero.mp (Nat.le_zero.mp hlen)
    subst hcs
    rw [List.append_nil]
    exact nlGo_tokens_nil hnl hlead (by simpa using htrail)
  | succ n ih =>
    intro cs acc hlen hnl hlead hwshead htrail hempty
    cases cs with
    | nil =>
      rw [List.append_nil]
      exact nlGo_tokens_nil hnl hlead (by simpa using htrail)
    | cons c cs' =>
      have hlen' : cs'.length ≤ n := by
        simp only [List.length_cons] at hlen
        omega
      have hshift : (c :: acc).reverse ++ cs' = acc.reverse ++ c :: cs' := by
        simp
      cases hws : isWsChar c with
      | false =>
        have hb : (isWsChar c &&
            (decide (c = '\n') || (cs'.takeWhile isWsChar).contains '\n')) = false := by
          simp [hws]
        have hstep : nlGo false acc (c :: cs') = nlGo false (c :: acc) cs' := by
          simp only [nlGo, hb, Bool.false_eq_true, if_false, ite_false]
        rw [hstep, ← hshift]
        apply ih cs' (c :: acc) hlen'
        · intro hm
          rcases List.mem_cons.mp hm with hm | hm
          · rw [← hm] at hws
            exact absurd hws (by decide)
          · exact hnl hm
        · intro x hx
          rw [List.reverse_cons, List.head?_append] at hx
          cases hh : acc.reverse.head? with
          | none =>
            rw [hh] at hx
            simp at hx
            subst hx
            exact hws
          | some y =>
            rw [hh] at hx
            simp at hx
            subst hx
            exact hlead _ hh
        · intro x hx hxx
          simp only [List.head?_cons, Option.some.injEq] at hx
          subst hx
          rw [hws] at hxx
          exact Bool.noConfusion hxx
        · rw [List.reverse_cons, List.append_assoc]
          simpa using htrail
        · intro hcon; exact absurd hcon (by simp)
      | true =>
        cases hnlc : (decide (c = '\n') || (cs'.takeWhile isWsChar).contains '\n') with
        | false =>
          have hb : (isWsChar c &&
              (decide (c = '\n') || (cs'.takeWhile isWsChar).contains '\n')) = false := by
            rw [hnlc]
            simp
          have hstep : nlGo false acc (c :: cs') = nlGo false (c :: acc) cs' := by
            simp only [nlGo, hb, Bool.false_eq_true, if_false, ite_false]
          have hcnn : ¬(c = '\n') := by
            intro he
            rw [he] at hnlc
            simp at hnlc
          have hnotin : '\n' ∉ cs'.takeWhile isWsChar := by
            intro hm
            have hc2 : (cs'.takeWhile isWsChar).contains '\n' = true :=
              List.elem_iff.mpr hm
            rw [hc2] at hnlc
            simp at hnlc
          have haccne : acc ≠ [] := by
            intro he
            have := hempty he c rfl
            rw [hws] at this
            exact Bool.noConfusion this
          rw [hstep, ← hshift]
          apply ih cs' (c :: acc) hlen'
          · intro hm
            rcases List.mem_cons.mp hm with hm | hm
            · exact hcnn hm.symm
            · exact hnl hm
          · intro x hx
            rw [List.reverse_cons, List.head?_append] at hx
            cases hh : acc.reverse.head? with
            | none =>
              rw [List.head?_eq_none_iff] at hh
              exact absurd (by simpa using hh) haccne
            | some y =>
              rw [hh] at hx
              simp at hx
              subst hx
              exact hlead _ hh
          · intro x hx _
            exact hnotin
          · rw [List.reverse_cons, List.append_assoc]
            simpa using htrail
          · intro hcon; exact absurd hcon (by simp)
        | true =>
          have hb : (isWsChar c &&
              (decide (c = '\n') || (cs'.takeWhile isWsChar).contains '\n')) = true := by
            rw [hnlc]
            simp [hws]
          have hstep : nlGo false acc (c :: cs') =
              acc.reverse :: nlGo false [] (cs'.dropWhile isWsChar) := by
            simp only [nlGo, hb, if_true, ite_true]
            rw [nlGo_skip]
            simp
          have hrunnl : '\n' ∈ c :: cs'.takeWhile isWsChar := by
            cases hdd : decide (c = '\n') with
            | true =>
              have hcn : c = '\n' := of_decide_eq_true hdd
              simp [hcn]
            | false =>
              rw [hdd] at hnlc
              simp only [Bool.false_or] at hnlc
              exact List.mem_cons_of_mem _ (List.elem_iff.mp hnlc)
          have hrunws : ∀ x ∈ c :: cs'.takeWhile isWsChar, isWsChar x = true := by
            intro x hx
            rcases List.mem_cons.mp hx with hx | hx
            · rw [hx]; exact hws
            · exact takeWhileAll x hx
          have hpretrail : noTrailWs acc.reverse := by
            intro x hx
            rw [List.getLast?_reverse] at hx
            by_contra hcon
            have hxws : isWsChar x = true := by
              cases hxx : isWsChar x
              · exact absurd hxx hcon
              · rfl
            have := hwshead x hx hxws
            rw [List.takeWhile_cons_of_pos hws] at this
            exact this hrunnl
          have hdecomp : acc.reverse ++ c :: cs' =
              acc.reverse ++ (c :: cs'.takeWhile isWsChar) ++ cs'.dropWhile isWsChar := by
            rw [List.append_assoc]
            congr 1
            simp [List.takeWhile_append_dropWhile]
          have hD := @tokensNl_sep acc.reverse (c :: cs'.takeWhile isWsChar)
            (cs'.dropWhile isWsChar) hlead hpretrail (by simpa using hnl) hrunws hrunnl
          have hIH := ih (cs'.dropWhile isWsChar) []
            (le_trans (lengthDropWhileLe isWsChar cs') hlen')
            (by simp)
            (by intro x hx; simp at hx)
            (by intro x hx; simp at hx)
            (by
              simp only [List.reverse_nil, List.nil_append]
              intro x hx
              have hdw : cs'.dropWhile isWsChar ≠ [] := by
                intro he
                rw [he] at hx
                simp at hx
              have hcs'ne : cs' ≠ [] := by
                intro he
                rw [he] at hdw
                simp [List.dropWhile] at hdw
              apply htrail
              rw [List.getLast?_append_of_ne_nil _ (by simp)]
              have e1 : (c :: cs').getLast? = cs'.getLast? := by
                show ([c] ++ cs').getLast? = cs'.getLast?
                exact List.getLast?_append_of_ne_nil _ hcs'ne
              rw [e1]
              have e2 : cs'.getLast? = (cs'.dropWhile isWsChar).getLast? := by
                conv_lhs => rw [← List.takeWhile_append_dropWhile isWsChar cs']
                exact List.getLast?_append_of_ne_nil _ hdw
              rw [e2]
              exact hx)
            (fun _ => by
              intro x hx
              have hh := List.head?_dropWhile_not isWsChar cs'
              rw [hx] at hh
              exact hh)
          rw [hstep]
          rw [List.filter_cons]
          simp only [List.reverse_nil, List.nil_append] at hIH
          rw [hIH, hdecomp, hD]
          by_cases hp : acc.reverse = []
          · simp [hp]
          · simp [hp]

theorem jsSplitNl_tokens {cs : List Char} (h1 : noLeadWs cs) (h2 : noTrailWs cs) :
    (jsSplitNl cs).filter (fun t => t ≠ []) = tokensNl cs := by
  have h := nlGo_tokens cs.length cs [] le_rfl (by simp)
    (by intro x hx; simp at hx)
    (by intro x hx; simp at hx)
    (by simpa using h2)
    (fun _ => h1)
  simpa using h

/-- Claim C5: the literal string `true` parses to enabled-with-no-services,
the empty (absent) input parses to disabled, and every other value parses to
enabled with the service list described by the specification: surrounding
whitespace trimmed, split on newlines, empty entries dropped (the code's
`/\s*\n\s*/` split agrees with that description on every input). -/
theorem C5_supervisor_parsing (s : String) (h1 : s ≠ "true") (h2 : s ≠ "") :
    parseSupervisor "true" = Supervisor.enabled ∧
    parseSupervisor "" = Supervisor.disabled ∧
    parseSupervisor s = Supervisor.services (specSupervisorServices s) := by
  refine ⟨rfl, rfl, ?_⟩
  unfold parseSupervisor specSupervisorServices
  rw [if_neg h1, if_neg h2]
  have h := @jsSplitNl_tokens (trimCs s.data)
    (fun x hx => trimCs_head hx) (fun x hx => trimCs_getLast hx)
  unfold tokensNl at h
  rw [h]

/-- Witness for C5 at a concrete service list with embedded options. -/
theorem C5_supervisor_parsing_witness :
    ("svc1 --opt\nsvc2" : String) ≠ "true" ∧ ("svc1 --opt\nsvc2" : String) ≠ "" ∧
    (parseSupervisor "true" = Supervisor.enabled ∧
     parseSupervisor "" = Supervisor.disabled ∧
     parseSupervisor "svc1 --opt\nsvc2" =
       Supervisor.services (specSupervisorServices "svc1 --opt\nsvc2")) :=
  ⟨by decide, by decide,
   C5_supervisor_parsing "svc1 --opt\nsvc2" (by decide) (by decide)⟩

/-- Claim C1 (code bug): with a save marker `/hab/pkgs/.cached` left over
from a previous job, a complete and successful setup run leaves that marker
untouched (the restore phase deletes `/hab/cache/artifacts/.cached`, a
different path), so the subsequent teardown run is skipped and performs no
save call — contradicting the claim (and the comments in both source files)
that the file deleted by the restore phase is the marker the teardown
checks. -/
theorem C1_stale_save_marker_not_deleted :
    (indexRun cfgBase oracleOk [POST_CACHE_LOCK_PATH]).outcome = .completed ∧
    POST_CACHE_LOCK_PATH ∈ (indexRun cfgBase oracleOk [POST_CACHE_LOCK_PATH]).fs ∧
    countSave (postRun postOracleOk
      (indexRun cfgBase oracleOk [POST_CACHE_LOCK_PATH]).fs).events = 0 ∧
    CACHE_LOCK_PATH ≠ POST_CACHE_LOCK_PATH := by
  decide

end BiomeAction
